import Mathlib

/-!
Verification development for the voting/ranking subsystem of the `cfh-new`
backend (`src/server/storage.ts`, class `MemStorage`, together with the
comment-vote HTTP handler registered in `registerRoutes`).

The embedding is shallow: each JavaScript `Map` becomes an association list
in insertion order (`Map.set` replaces an existing key in place and appends
a fresh key at the end, `Map.delete` removes the entry, iteration yields
insertion order, exactly like the JS semantics).  JavaScript numbers used as
counters and timestamps become `Int`; the fractional "hot" score computed by
`getMemes` becomes `Rat`.  Methods that `throw` become `Except String`.
-/

namespace CFH

/-- A vote direction, the `'up' | 'down'` union type of the source. -/
inductive Dir where
  | up
  | down
deriving DecidableEq, Repr

/-- The synthetic ledger key.  The source uses the string
`` `${kind}:${id}:user:${userId}` `` (e.g. `meme:3:user:7`); since the ids are
decimal numerals the string is injective in `(kind, id, userId)`, so we model
it by this tagged triple. -/
inductive VoteKey where
  | meme (id userId : Nat)
  | comment (id userId : Nat)
  | resource (id userId : Nat)
deriving DecidableEq, Repr

/-- The author summary that `getMemes` attaches to each meme
(`{id, username, level, avatar, title}`). -/
structure Author where
  id : Nat
  username : String
  level : Int
  avatar : Option String
  title : String
deriving DecidableEq, Repr

/-- The fields of a stored user that the meme pipeline reads. -/
structure User where
  id : Nat
  email : String
  username : String
  level : Int
  avatar : Option String
deriving DecidableEq, Repr

/-- A stored meme.  `createdAtMs` is `createdAt.getTime()`: the creation
timestamp in MILLISECONDS since the epoch, which is what
`new Date(x).getTime()` yields in `getMemes`.  `author` is the summary
attached by `getMemes`; `createMeme` stores the meme without one (`none`). -/
structure Meme where
  id : Nat
  authorId : Nat
  imageUrl : String
  caption : Option String
  upvotes : Int
  downvotes : Int
  createdAtMs : Int
  author : Option Author
deriving DecidableEq, Repr

/-- A stored comment. -/
structure Comment where
  id : Nat
  memeId : Nat
  authorId : Nat
  body : String
  parentId : Option Nat
  upvotes : Int
  createdAtMs : Int
deriving DecidableEq, Repr

/-- A stored resource, with its single signed `votes` counter. -/
structure Resource where
  id : Nat
  title : String
  category : Option String
  markdown : Option String
  downloadUrl : Option String
  votes : Int
  createdBy : Option Nat
  createdAtMs : Int
deriving DecidableEq, Repr

/-- `InsertMeme`: the data `createMeme` receives. -/
structure InsertMeme where
  authorId : Nat
  imageUrl : String
  caption : Option String
deriving DecidableEq, Repr

/-- `InsertComment`: the data `createComment` receives. -/
structure InsertComment where
  memeId : Nat
  authorId : Nat
  body : String
  parentId : Option Nat
deriving DecidableEq, Repr

/-- `InsertResource`: the data `createResource` (and `seedResources`)
receives. -/
structure InsertResource where
  title : String
  category : Option String
  markdown : Option String
  downloadUrl : Option String
  createdBy : Option Nat
deriving DecidableEq, Repr

/-- `Map.get`: the value stored at `k`, if any (first match; the lists we
build never hold a key twice). -/
def mapGet [DecidableEq κ] : List (κ × α) → κ → Option α
  | [], _ => none
  | (k', v) :: rest, k => if k' = k then some v else mapGet rest k

/-- `Map.set`: replace the entry for `k` in place if present, else append
`(k, v)` at the end — exactly the JS `Map` insertion-order contract. -/
def mapSet [DecidableEq κ] : List (κ × α) → κ → α → List (κ × α)
  | [], k, v => [(k, v)]
  | (k', v') :: rest, k, v =>
      if k' = k then (k, v) :: rest else (k', v') :: mapSet rest k v

/-- `Map.delete`: remove the entry for `k`, if present. -/
def mapDelete [DecidableEq κ] : List (κ × α) → κ → List (κ × α)
  | [], _ => []
  | (k', v') :: rest, k =>
      if k' = k then rest else (k', v') :: mapDelete rest k

/-- The `MemStorage` state: one association list per JS `Map` field, the
vote ledger `userVotes`, and the id counters. -/
structure Store where
  users : List (Nat × User)
  memes : List (Nat × Meme)
  comments : List (Nat × Comment)
  resources : List (Nat × Resource)
  userVotes : List (VoteKey × Dir)
  userId : Nat
  memeId : Nat
  commentId : Nat
  resourceId : Nat
deriving DecidableEq, Repr

/-- `voteMeme(id, userId, vote)` from `storage.ts`: look the meme up (throw
`'Meme not found'` if absent), undo any existing vote's counter effect, then
either apply the new direction and record it, or — when the prior vote equals
the new one — toggle the record off. -/
def Store.voteMeme (s : Store) (id u : Nat) (vote : Dir) :
    Except String (Meme × Store) :=
  match mapGet s.memes id with
  | none => .error "Meme not found"
  | some meme0 =>
    let voteKey : VoteKey := .meme id u
    let existingVote := mapGet s.userVotes voteKey
    -- Remove existing vote
    let meme1 :=
      if existingVote = some Dir.up then
        { meme0 with upvotes := meme0.upvotes - 1 } else meme0
    let meme2 :=
      if existingVote = some Dir.down then
        { meme1 with downvotes := meme1.downvotes - 1 } else meme1
    if existingVote ≠ some vote then
      -- Apply new vote if it's different
      let meme3 :=
        if vote = Dir.up then
          { meme2 with upvotes := meme2.upvotes + 1 } else meme2
      let meme4 :=
        if vote = Dir.down then
          { meme3 with downvotes := meme3.downvotes + 1 } else meme3
      .ok (meme4, { s with memes := mapSet s.memes id meme4,
                           userVotes := mapSet s.userVotes voteKey vote })
    else
      -- If same vote, remove it (toggle)
      .ok (meme2, { s with memes := mapSet s.memes id meme2,
                           userVotes := mapDelete s.userVotes voteKey })

/-- `voteComment(id, userId, vote)` from `storage.ts`.  The TypeScript
signature restricts `vote` to the literal type `'up'`, and the only caller
(the route handler) passes the literal `'up'`, so the direction is fixed. -/
def Store.voteComment (s : Store) (id u : Nat) :
    Except String (Comment × Store) :=
  let vote : Dir := .up
  match mapGet s.comments id with
  | none => .error "Comment not found"
  | some comment0 =>
    let voteKey : VoteKey := .comment id u
    let existingVote := mapGet s.userVotes voteKey
    -- Toggle vote
    if existingVote = some vote then
      let comment1 := { comment0 with upvotes := comment0.upvotes - 1 }
      .ok (comment1, { s with comments := mapSet s.comments id comment1,
                              userVotes := mapDelete s.userVotes voteKey })
    else
      let comment1 := { comment0 with upvotes := comment0.upvotes + 1 }
      .ok (comment1, { s with comments := mapSet s.comments id comment1,
                              userVotes := mapSet s.userVotes voteKey vote })

/-- `voteResource(id, userId, vote)` from `storage.ts`: toggle-off subtracts
the old direction's signed value, a switch adds `±2`, a fresh vote adds
`±1`. -/
def Store.voteResource (s : Store) (id u : Nat) (vote : Dir) :
    Except String (Resource × Store) :=
  match mapGet s.resources id with
  | none => .error "Resource not found"
  | some resource0 =>
    let voteKey : VoteKey := .resource id u
    let existingVote := mapGet s.userVotes voteKey
    if existingVote = some vote then
      -- Toggle vote
      let r1 := { resource0 with
                    votes := resource0.votes +
                      (if vote = Dir.up then -1 else 1) }
      .ok (r1, { s with resources := mapSet s.resources id r1,
                        userVotes := mapDelete s.userVotes voteKey })
    else if (mapGet s.userVotes voteKey).isSome then
      -- Change vote
      let r1 := { resource0 with
                    votes := resource0.votes +
                      (if vote = Dir.up then 2 else -2) }
      .ok (r1, { s with resources := mapSet s.resources id r1,
                        userVotes := mapSet s.userVotes voteKey vote })
    else
      -- New vote
      let r1 := { resource0 with
                    votes := resource0.votes +
                      (if vote = Dir.up then 1 else -1) }
      .ok (r1, { s with resources := mapSet s.resources id r1,
                        userVotes := mapSet s.userVotes voteKey vote })

/-- The `POST /api/comments/:id/vote` handler from `registerRoutes`
(`auth.ts`): it reads no direction from the request body and always calls
`storage.voteComment(id, userId, 'up')`, whatever `bodyVote` says. -/
def commentVoteRoute (s : Store) (id u : Nat) (bodyVote : String) :
    Except String (Comment × Store) :=
  s.voteComment id u

/-- `createMeme`: assign `memeId++`, zero the counters, stamp `now`. -/
def Store.createMeme (s : Store) (im : InsertMeme) (nowMs : Int) :
    Meme × Store :=
  let id := s.memeId
  let meme : Meme :=
    { id := id, authorId := im.authorId, imageUrl := im.imageUrl,
      caption := im.caption, upvotes := 0, downvotes := 0,
      createdAtMs := nowMs, author := none }
  (meme, { s with memes := mapSet s.memes id meme, memeId := s.memeId + 1 })

/-- `createComment`: assign `commentId++`, zero `upvotes`, stamp `now`. -/
def Store.createComment (s : Store) (ic : InsertComment) (nowMs : Int) :
    Comment × Store :=
  let id := s.commentId
  let comment : Comment :=
    { id := id, memeId := ic.memeId, authorId := ic.authorId,
      body := ic.body, parentId := ic.parentId, upvotes := 0,
      createdAtMs := nowMs }
  (comment, { s with comments := mapSet s.comments id comment,
                     commentId := s.commentId + 1 })

/-- `createResource`: assign `resourceId++`, zero `votes`, stamp `now`. -/
def Store.createResource (s : Store) (ir : InsertResource) (nowMs : Int) :
    Resource × Store :=
  let id := s.resourceId
  let resource : Resource :=
    { id := id, title := ir.title, category := ir.category,
      markdown := ir.markdown, downloadUrl := ir.downloadUrl, votes := 0,
      createdBy := ir.createdBy, createdAtMs := nowMs }
  (resource, { s with resources := mapSet s.resources id resource,
                      resourceId := s.resourceId + 1 })

/-- The three seed resources of `seedResources`. -/
def seedResourceList : List InsertResource :=
  [ { title := "Bulletproof Contract Template",
      category := some "contracts",
      markdown := some "# Bulletproof Contract Template\n\nThis contract is designed to protect freelancers from scope creep, payment issues, and intellectual property disputes.",
      downloadUrl := some "/downloads/bulletproof-contract.pdf",
      createdBy := none },
    { title := "Real Price Calculator",
      category := some "pricing",
      markdown := some "# Real Price Calculator\n\nCalculate what you should actually charge based on your experience, market rates, and client difficulty.",
      downloadUrl := some "/downloads/price-calculator.xlsx",
      createdBy := none },
    { title := "Email Response Templates",
      category := some "communication",
      markdown := some "# Email Response Templates\n\nProfessional templates for handling difficult clients, late payments, and scope creep.",
      downloadUrl := some "/downloads/email-templates.docx",
      createdBy := none } ]

/-- `seedResources`: insert the seed resources, advancing `resourceId`. -/
def Store.seedResources (s : Store) (nowMs : Int) : Store :=
  seedResourceList.foldl
    (fun acc ir =>
      let id := acc.resourceId
      { acc with
          resources := mapSet acc.resources id
            { id := id, title := ir.title, category := ir.category,
              markdown := ir.markdown, downloadUrl := ir.downloadUrl,
              votes := 0, createdBy := ir.createdBy, createdAtMs := nowMs },
          resourceId := acc.resourceId + 1 })
    s

/-- The `MemStorage` constructor: empty maps, all id counters at `1`, then
`seedResources()` (stamped with the construction time `nowMs`). -/
def MemStorage.new (nowMs : Int) : Store :=
  Store.seedResources
    { users := [], memes := [], comments := [], resources := [],
      userVotes := [], userId := 1, memeId := 1, commentId := 1,
      resourceId := 1 }
    nowMs

/-- The `hot` score actually computed by `getMemes`:
`(upvotes - downvotes) + new Date(createdAt).getTime() / 1000000`, where
`getTime()` is the timestamp in milliseconds. -/
def hotScore (m : Meme) : Rat :=
  ((m.upvotes - m.downvotes : Int) : Rat) + (m.createdAtMs : Rat) / 1000000

/-- The scalar key each of the three comparator branches of `getMemes` sorts
descending by: `new` → creation time, `top` → net score, anything else
(including the default `'hot'`) → `hotScore`. -/
def memeSortKey (sortBy : String) (m : Meme) : Rat :=
  if sortBy = "new" then (m.createdAtMs : Rat)
  else if sortBy = "top" then ((m.upvotes - m.downvotes : Int) : Rat)
  else hotScore m

/-- Insert `x` into a descending-sorted list: walk past strictly greater
keys and stop before the first key `≤ k x`.  Since the JS engine's
`Array.prototype.sort` is stable (ES2019) and all three comparators of
`getMemes` are of the form `key(b) - key(a)`, insertion from the left with
this placement reproduces the engine's result exactly: later input elements
never overtake equal keys. -/
def insertDescBy (k : α → Rat) (x : α) : List α → List α
  | [] => [x]
  | y :: ys => if k y ≤ k x then x :: y :: ys else y :: insertDescBy k x ys

/-- Stable descending sort by `k` (the behaviour of `memes.sort(comparator)`
for a comparator `(a, b) => k(b) - k(a)`). -/
def sortDescBy (k : α → Rat) : List α → List α
  | [] => []
  | x :: xs => insertDescBy k x (sortDescBy k xs)

/-- The sorting stage of `getMemes`: the three `sortBy` branches. -/
def rankMemes (sortBy : String) (l : List Meme) : List Meme :=
  sortDescBy (memeSortKey sortBy) l

/-- `Array.prototype.slice(start, stop)` for `0 ≤ start ≤ stop`. -/
def jsSlice (l : List α) (start stop : Nat) : List α :=
  (l.drop start).take (stop - start)

/-- The per-meme author attachment of `getMemes`: look the author up and
attach `{id, username, level: level || 1, avatar, title: 'Designer'}`, or
`null` when the author does not exist. -/
def Store.attachAuthor (s : Store) (m : Meme) : Meme :=
  match mapGet s.users m.authorId with
  | some u =>
      { m with author := some ({
          id := u.id,
          username := u.username,
          level := if u.level = 0 then 1 else u.level,
          avatar := u.avatar,
          title := "Designer" } : Author) }
  | none => { m with author := none }

/-- `getMemes(limit, offset, sortBy)` from `storage.ts` (defaults in the
source: `limit = 10`, `offset = 0`, `sortBy = 'hot'`): sort all memes,
slice `(offset, offset + limit)`, attach authors. -/
def Store.getMemes (s : Store) (limit offset : Nat) (sortBy : String) :
    List Meme :=
  let memes := s.memes.map Prod.snd
  let sorted := rankMemes sortBy memes
  let paginatedMemes := jsSlice sorted offset (offset + limit)
  paginatedMemes.map s.attachAuthor

/-- One storage call, as fired by the HTTP facade.  The `create*`
constructors carry the wall-clock stamp `new Date()` as data. -/
inductive Op where
  | voteMeme (id u : Nat) (v : Dir)
  | voteComment (id u : Nat)
  | voteResource (id u : Nat) (v : Dir)
  | createMeme (im : InsertMeme) (nowMs : Int)
  | createComment (ic : InsertComment) (nowMs : Int)
  | createResource (ir : InsertResource) (nowMs : Int)
deriving DecidableEq, Repr

/-- Run one call against the store.  A successful vote yields the mutated
store; a thrown `not found` error leaves the store exactly as it was (the
methods check existence before touching anything). -/
def applyOp (s : Store) (op : Op) : Store :=
  match op with
  | .voteMeme id u v =>
      match s.voteMeme id u v with
      | .ok (_, s') => s'
      | .error _ => s
  | .voteComment id u =>
      match s.voteComment id u with
      | .ok (_, s') => s'
      | .error _ => s
  | .voteResource id u v =>
      match s.voteResource id u v with
      | .ok (_, s') => s'
      | .error _ => s
  | .createMeme im nowMs => (s.createMeme im nowMs).2
  | .createComment ic nowMs => (s.createComment ic nowMs).2
  | .createResource ir nowMs => (s.createResource ir nowMs).2

/-- Run a whole sequence of calls. -/
def applyOps (s : Store) (ops : List Op) : Store :=
  ops.foldl applyOp s

/-- The number (as an integer) of entries of a map satisfying a Boolean
predicate. -/
def countP (l : List (κ × α)) (p : κ × α → Bool) : Int :=
  ((l.filter p).length : Int)

/-- The contribution of a single entry to `countP`. -/
def entryCount (p : κ × α → Bool) (x : κ × α) : Int :=
  if p x then 1 else 0

/-! ### Concrete stores used to instantiate theorems with hypotheses -/

/-- A meme with net score `1`, created at the epoch. -/
def cexMemeOld : Meme :=
  { id := 1, authorId := 1, imageUrl := "old.png", caption := none,
    upvotes := 1, downvotes := 0, createdAtMs := 0, author := none }

/-- A meme with net score `0`, created `2_000_000` ms (about 33 minutes)
after the epoch. -/
def cexMemeNew : Meme :=
  { id := 2, authorId := 1, imageUrl := "new.png", caption := none,
    upvotes := 0, downvotes := 0, createdAtMs := 2000000, author := none }

/-- A store holding exactly `cexMemeOld` (inserted first) and
`cexMemeNew`. -/
def hotCexStore : Store :=
  { users := [], memes := [(1, cexMemeOld), (2, cexMemeNew)], comments := [],
    resources := [], userVotes := [], userId := 1, memeId := 3,
    commentId := 1, resourceId := 1 }

/-- Modelled from the spec: the ranking score claim C1 ascribes to the
`hot` policy, `(upvotes − downvotes) + creationTimestampSeconds / 1_000_000`
with "creationTimestampSeconds ... the entity's creation timestamp expressed
in seconds", i.e. `createdAtMs / 1000` seconds. -/
def specHotScore (m : Meme) : Rat :=
  ((m.upvotes - m.downvotes : Int) : Rat) +
    ((m.createdAtMs : Rat) / 1000) / 1000000


/-- A one-meme store used to instantiate the pagination and fallback
theorems. -/
def paginationStore : Store :=
  { users := [], memes := [(1, cexMemeOld)], comments := [], resources := [],
    userVotes := [], userId := 1, memeId := 2, commentId := 1,
    resourceId := 1 }


/-- Add one vote in direction `v` to a meme's counters (the `meme.upvotes++`
/ `meme.downvotes++` step of `voteMeme`). -/
def applyDir (v : Dir) (m : Meme) : Meme :=
  match v with
  | .up => { m with upvotes := m.upvotes + 1 }
  | .down => { m with downvotes := m.downvotes + 1 }

/-- Remove one vote in direction `v` from a meme's counters (the
`meme.upvotes--` / `meme.downvotes--` step of `voteMeme`). -/
def undoDir (v : Dir) (m : Meme) : Meme :=
  match v with
  | .up => { m with upvotes := m.upvotes - 1 }
  | .down => { m with downvotes := m.downvotes - 1 }

/-- The signed value of a direction on a single-signed-counter subject:
`up = +1`, `down = -1`. -/
def dirSign (v : Dir) : Int :=
  match v with
  | .up => 1
  | .down => -1

/-- The signed value of an optional vote record: no record counts `0`. -/
def recSign (o : Option Dir) : Int :=
  match o with
  | none => 0
  | some v => dirSign v

/-- Does a ledger entry record a vote with direction `d` on meme `id`? -/
def isMemeVote (id : Nat) (d : Dir) : VoteKey × Dir → Bool
  | (VoteKey.meme mid _, d') => mid == id && d' == d
  | _ => false

/-- Does a ledger entry record an `up` vote on comment `id`? -/
def isCommentUpVote (id : Nat) : VoteKey × Dir → Bool
  | (VoteKey.comment cid _, d') => cid == id && d' == Dir.up
  | _ => false

/-- Does a ledger entry record a vote with direction `d` on resource
`id`? -/
def isResourceVote (id : Nat) (d : Dir) : VoteKey × Dir → Bool
  | (VoteKey.resource rid _, d') => rid == id && d' == d
  | _ => false

/-- The ledger key refers to a subject that exists in the store. -/
def voteKeyLive (s : Store) : VoteKey → Prop
  | .meme id _ => ∃ w, mapGet s.memes id = some w
  | .comment id _ => ∃ w, mapGet s.comments id = some w
  | .resource id _ => ∃ w, mapGet s.resources id = some w

/-- The counters-match-ledger invariant of the spec: every meme's `upvotes`
(resp. `downvotes`) equals the number of active `up` (resp. `down`) records
for it, every comment's `upvotes` equals its number of active `up` records,
and every resource's `votes` equals its active `up` records minus its
active `down` records. -/
def LedgerInv (s : Store) : Prop :=
  (∀ p ∈ s.memes,
      p.2.upvotes = countP s.userVotes (isMemeVote p.1 Dir.up) ∧
      p.2.downvotes = countP s.userVotes (isMemeVote p.1 Dir.down)) ∧
  (∀ p ∈ s.comments, p.2.upvotes = countP s.userVotes (isCommentUpVote p.1)) ∧
  (∀ p ∈ s.resources,
      p.2.votes = countP s.userVotes (isResourceVote p.1 Dir.up) -
        countP s.userVotes (isResourceVote p.1 Dir.down))

/-- Structural well-formedness maintained by `MemStorage`: each entity map
holds each id at most once, ids stay below the id counter, and every ledger
record points at an existing subject. -/
structure StoreWF (s : Store) : Prop where
  memeKeysNodup : (s.memes.map Prod.fst).Nodup
  commentKeysNodup : (s.comments.map Prod.fst).Nodup
  resourceKeysNodup : (s.resources.map Prod.fst).Nodup
  memeKeysLt : ∀ p ∈ s.memes, p.1 < s.memeId
  commentKeysLt : ∀ p ∈ s.comments, p.1 < s.commentId
  resourceKeysLt : ∀ p ∈ s.resources, p.1 < s.resourceId
  liveKeys : ∀ q ∈ s.userVotes, voteKeyLive s q.1

/-- A meme with zeroed counters, for instantiating the vote theorems. -/
def wMeme : Meme :=
  { id := 1, authorId := 1, imageUrl := "w.png", caption := none,
    upvotes := 0, downvotes := 0, createdAtMs := 0, author := none }

/-- A comment with a zeroed counter. -/
def wComment : Comment :=
  { id := 1, memeId := 1, authorId := 1, body := "first", parentId := none,
    upvotes := 0, createdAtMs := 0 }

/-- A resource with a zeroed counter. -/
def wResource : Resource :=
  { id := 1, title := "Scope Creep Bingo", category := some "pricing",
    markdown := none, downloadUrl := none, votes := 0, createdBy := none,
    createdAtMs := 0 }

/-- A store holding one fresh meme, comment and resource and an empty
ledger. -/
def freshSubjectStore : Store :=
  { users := [], memes := [(1, wMeme)], comments := [(1, wComment)],
    resources := [(1, wResource)], userVotes := [], userId := 1,
    memeId := 2, commentId := 2, resourceId := 2 }

/-! ### Association-list (JS `Map`) lemmas -/
section MapLemmas

variable {κ α : Type} [DecidableEq κ]

theorem mapGet_mapSet_self (l : List (κ × α)) (k : κ) (v : α) :
    mapGet (mapSet l k v) k = some v := by
  induction l with
  | nil => simp [mapGet, mapSet]
  | cons hd tl ih =>
      obtain ⟨k₀, v₀⟩ := hd
      by_cases h₀ : k₀ = k
      · subst h₀; simp [mapGet, mapSet]
      · simp [mapGet, mapSet, h₀, ih]

theorem mapGet_mapSet_ne (l : List (κ × α)) {k k' : κ} (v : α)
    (h : k' ≠ k) : mapGet (mapSet l k v) k' = mapGet l k' := by
  induction l with
  | nil => simp [mapGet, mapSet, Ne.symm h]
  | cons hd tl ih =>
      obtain ⟨k₀, v₀⟩ := hd
      by_cases h₀ : k₀ = k
      · subst h₀
        simp [mapGet, mapSet, Ne.symm h]
      · by_cases h₁ : k₀ = k'
        · subst h₁
          simp [mapGet, mapSet, h₀]
        · simp [mapGet, mapSet, h₀, h₁, ih]

theorem mapGet_mapDelete_ne (l : List (κ × α)) {k k' : κ}
    (h : k' ≠ k) : mapGet (mapDelete l k) k' = mapGet l k' := by
  induction l with
  | nil => simp [mapDelete]
  | cons hd tl ih =>
      obtain ⟨k₀, v₀⟩ := hd
      by_cases h₀ : k₀ = k
      · subst h₀
        simp [mapGet, mapDelete, Ne.symm h]
      · by_cases h₁ : k₀ = k'
        · subst h₁
          simp [mapGet, mapDelete, h₀]
        · simp [mapGet, mapDelete, h₀, h₁, ih]

theorem mapGet_mem {l : List (κ × α)} {k : κ} {v : α}
    (h : mapGet l k = some v) : (k, v) ∈ l := by
  induction l with
  | nil => simp [mapGet] at h
  | cons hd tl ih =>
      obtain ⟨k₀, v₀⟩ := hd
      by_cases h₀ : k₀ = k
      · subst h₀
        simp [mapGet] at h
        subst h
        exact List.mem_cons_self _ _
      · simp [mapGet, h₀] at h
        exact List.mem_cons_of_mem _ (ih h)

theorem mem_mapSet {l : List (κ × α)} {k : κ} {v : α} {x : κ × α}
    (h : x ∈ mapSet l k v) : x = (k, v) ∨ x ∈ l := by
  induction l with
  | nil => simpa [mapSet] using h
  | cons hd tl ih =>
      obtain ⟨k₀, v₀⟩ := hd
      by_cases h₀ : k₀ = k
      · subst h₀
        simp [mapSet] at h
        rcases h with h | h
        · exact Or.inl h
        · exact Or.inr (List.mem_cons_of_mem _ h)
      · simp [mapSet, h₀] at h
        rcases h with h | h
        · exact Or.inr (by simp [h])
        · rcases ih h with h' | h'
          · exact Or.inl h'
          · exact Or.inr (List.mem_cons_of_mem _ h')

theorem mem_mapDelete {l : List (κ × α)} {k : κ} {x : κ × α}
    (h : x ∈ mapDelete l k) : x ∈ l := by
  induction l with
  | nil => simpa [mapDelete] using h
  | cons hd tl ih =>
      obtain ⟨k₀, v₀⟩ := hd
      by_cases h₀ : k₀ = k
      · subst h₀
        simp [mapDelete] at h
        exact List.mem_cons_of_mem _ h
      · simp [mapDelete, h₀] at h
        rcases h with h | h
        · simp [h]
        · exact List.mem_cons_of_mem _ (ih h)

theorem keys_mapSet_of_get_some {l : List (κ × α)} {k : κ} {w : α}
    (hk : mapGet l k = some w) (v : α) :
    (mapSet l k v).map Prod.fst = l.map Prod.fst := by
  induction l with
  | nil => simp [mapGet] at hk
  | cons hd tl ih =>
      obtain ⟨k₀, v₀⟩ := hd
      by_cases h₀ : k₀ = k
      · subst h₀; simp [mapSet]
      · simp [mapGet, h₀] at hk
        simp [mapSet, h₀, ih hk]

theorem keys_mapSet_of_get_none {l : List (κ × α)} {k : κ}
    (hk : mapGet l k = none) (v : α) :
    (mapSet l k v).map Prod.fst = l.map Prod.fst ++ [k] := by
  induction l with
  | nil => simp [mapSet]
  | cons hd tl ih =>
      obtain ⟨k₀, v₀⟩ := hd
      by_cases h₀ : k₀ = k
      · subst h₀; simp [mapGet] at hk
      · simp [mapGet, h₀] at hk
        simp [mapSet, h₀, ih hk]

theorem mem_mapSet_iff {l : List (κ × α)} {k : κ} {w : α}
    (hnd : (l.map Prod.fst).Nodup) (hk : mapGet l k = some w) (v : α)
    (x : κ × α) : x ∈ mapSet l k v ↔ x = (k, v) ∨ (x ∈ l ∧ x.1 ≠ k) := by
  induction l with
  | nil => simp [mapGet] at hk
  | cons hd tl ih =>
      obtain ⟨k₀, v₀⟩ := hd
      simp only [List.map_cons, List.nodup_cons] at hnd
      by_cases h₀ : k₀ = k
      · subst h₀
        have hkey : ∀ y ∈ tl, y.1 ≠ k₀ := fun y hy hxy =>
          hnd.1 (hxy ▸ List.mem_map_of_mem Prod.fst hy)
        constructor
        · intro hx
          simp [mapSet] at hx
          rcases hx with hx | hx
          · exact Or.inl hx
          · exact Or.inr ⟨List.mem_cons_of_mem _ hx, hkey x hx⟩
        · intro hx
          rcases hx with hx | ⟨hx, hne⟩
          · simp [mapSet, hx]
          · rcases List.mem_cons.mp hx with hx' | hx'
            · exact absurd (congrArg Prod.fst hx') hne
            · simp [mapSet]
              exact Or.inr hx'
      · simp [mapGet, h₀] at hk
        constructor
        · intro hx
          simp [mapSet, h₀] at hx
          rcases hx with hx | hx
          · refine Or.inr ⟨by simp [hx], ?_⟩
            rw [hx]
            exact h₀
          · rcases (ih hnd.2 hk).mp hx with hx' | hx'
            · exact Or.inl hx'
            · exact Or.inr ⟨List.mem_cons_of_mem _ hx'.1, hx'.2⟩
        · intro hx
          rcases hx with hx | ⟨hx, hne⟩
          · have hmem : x ∈ mapSet tl k v := (ih hnd.2 hk).mpr (Or.inl hx)
            simp [mapSet, h₀]
            exact Or.inr hmem
          · rcases List.mem_cons.mp hx with hx' | hx'
            · simp [mapSet, h₀, hx']
            · have hmem : x ∈ mapSet tl k v :=
                (ih hnd.2 hk).mpr (Or.inr ⟨hx', hne⟩)
              simp [mapSet, h₀]
              exact Or.inr hmem

theorem mapDelete_mapSet_of_get_none {l : List (κ × α)} {k : κ}
    (hk : mapGet l k = none) (v : α) :
    mapDelete (mapSet l k v) k = l := by
  induction l with
  | nil => simp [mapSet, mapDelete]
  | cons hd tl ih =>
      obtain ⟨k₀, v₀⟩ := hd
      by_cases h₀ : k₀ = k
      · subst h₀; simp [mapGet] at hk
      · simp [mapGet, h₀] at hk
        simp [mapSet, mapDelete, h₀, ih hk]

theorem mapSet_mapSet_self (l : List (κ × α)) (k : κ) (a b : α) :
    mapSet (mapSet l k a) k b = mapSet l k b := by
  induction l with
  | nil => simp [mapSet]
  | cons hd tl ih =>
      obtain ⟨k₀, v₀⟩ := hd
      by_cases h₀ : k₀ = k
      · subst h₀; simp [mapSet]
      · simp [mapSet, h₀, ih]

end MapLemmas

/-! ### Counting ledger entries -/

section CountLemmas

theorem countP_nil (p : κ × α → Bool) :
    countP ([] : List (κ × α)) p = 0 := by
  simp [countP]

theorem countP_cons (x : κ × α) (l : List (κ × α)) (p : κ × α → Bool) :
    countP (x :: l) p = entryCount p x + countP l p := by
  by_cases h : p x <;> simp [countP, entryCount, h] <;> ring

theorem countP_eq_zero {l : List (κ × α)} {p : κ × α → Bool}
    (h : ∀ x ∈ l, p x = false) : countP l p = 0 := by
  have hf : l.filter p = [] :=
    List.filter_eq_nil_iff.mpr fun x hx => by simp [h x hx]
  simp [countP, hf]

variable [DecidableEq κ]

theorem countP_mapSet_of_get_none {l : List (κ × α)} {k : κ}
    (hk : mapGet l k = none) (v : α) (p : κ × α → Bool) :
    countP (mapSet l k v) p = countP l p + entryCount p (k, v) := by
  induction l with
  | nil => simp [mapSet, countP_cons, countP_nil]
  | cons hd tl ih =>
      obtain ⟨k₀, v₀⟩ := hd
      by_cases h₀ : k₀ = k
      · subst h₀; simp [mapGet] at hk
      · simp [mapGet, h₀] at hk
        rw [mapSet, if_neg h₀, countP_cons, countP_cons, ih hk]
        ring

theorem countP_mapSet_of_get_some {l : List (κ × α)} {k : κ} {w : α}
    (hk : mapGet l k = some w) (v : α) (p : κ × α → Bool) :
    countP (mapSet l k v) p =
      countP l p - entryCount p (k, w) + entryCount p (k, v) := by
  induction l with
  | nil => simp [mapGet] at hk
  | cons hd tl ih =>
      obtain ⟨k₀, v₀⟩ := hd
      by_cases h₀ : k₀ = k
      · subst h₀
        simp [mapGet] at hk
        subst hk
        rw [mapSet, if_pos rfl, countP_cons, countP_cons]
        ring
      · simp [mapGet, h₀] at hk
        rw [mapSet, if_neg h₀, countP_cons, countP_cons, ih hk]
        ring

theorem countP_mapDelete_of_get_some {l : List (κ × α)} {k : κ} {w : α}
    (hk : mapGet l k = some w) (p : κ × α → Bool) :
    countP (mapDelete l k) p = countP l p - entryCount p (k, w) := by
  induction l with
  | nil => simp [mapGet] at hk
  | cons hd tl ih =>
      obtain ⟨k₀, v₀⟩ := hd
      by_cases h₀ : k₀ = k
      · subst h₀
        simp [mapGet] at hk
        subst hk
        rw [mapDelete, if_pos rfl, countP_cons]
        ring
      · simp [mapGet, h₀] at hk
        rw [mapDelete, if_neg h₀, countP_cons, countP_cons, ih hk]
        ring

end CountLemmas

/-! ### Sorting lemmas -/

section SortLemmas

variable {α : Type}

theorem insertDescBy_perm (k : α → Rat) (x : α) (l : List α) :
    List.Perm (insertDescBy k x l) (x :: l) := by
  induction l with
  | nil => simp [insertDescBy]
  | cons y ys ih =>
      by_cases h : k y ≤ k x
      · simp only [insertDescBy]
        rw [if_pos h]
      · simp only [insertDescBy]
        rw [if_neg h]
        exact (ih.cons y).trans (List.Perm.swap x y ys)

theorem sortDescBy_perm (k : α → Rat) (l : List α) :
    List.Perm (sortDescBy k l) l := by
  induction l with
  | nil => simp [sortDescBy]
  | cons x xs ih =>
      exact (insertDescBy_perm k x (sortDescBy k xs)).trans (ih.cons x)

theorem pairwise_insertDescBy (k : α → Rat) (x : α) {l : List α}
    (hl : l.Pairwise (fun a b => k b ≤ k a)) :
    (insertDescBy k x l).Pairwise (fun a b => k b ≤ k a) := by
  induction l with
  | nil => simp [insertDescBy]
  | cons y ys ih =>
      rcases List.pairwise_cons.mp hl with ⟨hy, hys⟩
      by_cases h : k y ≤ k x
      · simp only [insertDescBy]
        rw [if_pos h]
        refine List.pairwise_cons.mpr ⟨?_, hl⟩
        intro z hz
        rcases List.mem_cons.mp hz with rfl | hz'
        · exact h
        · exact le_trans (hy z hz') h
      · simp only [insertDescBy]
        rw [if_neg h]
        refine List.pairwise_cons.mpr ⟨?_, ih hys⟩
        intro z hz
        rcases List.mem_cons.mp (((insertDescBy_perm k x ys).mem_iff).mp hz)
          with rfl | hz'
        · exact le_of_lt (lt_of_not_le h)
        · exact hy z hz'

theorem pairwise_sortDescBy (k : α → Rat) (l : List α) :
    (sortDescBy k l).Pairwise (fun a b => k b ≤ k a) := by
  induction l with
  | nil => simp [sortDescBy]
  | cons x xs ih => exact pairwise_insertDescBy k x ih

theorem filter_insertDescBy (k : α → Rat) (c : Rat) (x : α) (l : List α) :
    (insertDescBy k x l).filter (fun y => decide (k y = c)) =
      if k x = c then x :: l.filter (fun y => decide (k y = c))
      else l.filter (fun y => decide (k y = c)) := by
  induction l with
  | nil =>
      by_cases h : k x = c <;> simp [insertDescBy, h]
  | cons y ys ih =>
      by_cases hxy : k y ≤ k x
      · simp only [insertDescBy]
        rw [if_pos hxy]
        by_cases h : k x = c <;> simp [h, List.filter_cons]
      · simp only [insertDescBy]
        rw [if_neg hxy]
        by_cases h : k x = c
        · have hy : ¬(k y = c) := fun hyc => hxy (by rw [hyc, h])
          simp [List.filter_cons, hy, ih, h]
        · by_cases hy : k y = c <;> simp [List.filter_cons, hy, ih, h]

theorem filter_sortDescBy (k : α → Rat) (c : Rat) (l : List α) :
    (sortDescBy k l).filter (fun y => decide (k y = c)) =
      l.filter (fun y => decide (k y = c)) := by
  induction l with
  | nil => simp [sortDescBy]
  | cons x xs ih =>
      simp only [sortDescBy]
      rw [filter_insertDescBy]
      by_cases h : k x = c <;> simp [h, ih, List.filter_cons]

end SortLemmas

/-! ### Key lemmas for the three comparator branches -/

theorem memeSortKey_of_ne {sortBy : String} (h1 : sortBy ≠ "new")
    (h2 : sortBy ≠ "top") (m : Meme) : memeSortKey sortBy m = hotScore m := by
  simp [memeSortKey, h1, h2]

theorem attachAuthor_counters (s : Store) (m : Meme) :
    (s.attachAuthor m).upvotes = m.upvotes ∧
      (s.attachAuthor m).downvotes = m.downvotes ∧
      (s.attachAuthor m).createdAtMs = m.createdAtMs := by
  unfold Store.attachAuthor
  cases mapGet s.users m.authorId <;> simp

theorem hotScore_attachAuthor (s : Store) (m : Meme) :
    hotScore (s.attachAuthor m) = hotScore m := by
  obtain ⟨h1, h2, h3⟩ := attachAuthor_counters s m
  simp [hotScore, h1, h2, h3]

/-- Claim C1, counterexample: with `cexMemeOld` (spec score `1`, code score
`1`) and `cexMemeNew` (spec score `0.002`, code score `2`) the `hot` feed
returned by `getMemes` is NOT in descending order of the spec's
seconds-based score — the code divides the MILLISECOND timestamp by
`1_000_000`, so `cexMemeNew` outranks `cexMemeOld`. -/
theorem hot_rank_seconds_score_cex :
    ¬ (hotCexStore.getMemes 10 0 "hot").Pairwise
        (fun a b => specHotScore b ≤ specHotScore a) := by
  have hcond : ¬ (memeSortKey "hot" cexMemeNew ≤ memeSortKey "hot" cexMemeOld) := by
    rw [memeSortKey_of_ne (by decide) (by decide),
        memeSortKey_of_ne (by decide) (by decide)]
    norm_num [hotScore, cexMemeNew, cexMemeOld]
  have hout : hotCexStore.getMemes 10 0 "hot" = [cexMemeNew, cexMemeOld] := by
    simp only [Store.getMemes, hotCexStore, rankMemes, List.map_cons,
      List.map_nil, sortDescBy, insertDescBy]
    rw [if_neg hcond]
    simp only [jsSlice, Nat.zero_add, Nat.sub_zero, List.drop_zero]
    rw [List.take_of_length_le (by simp)]
    simp [Store.attachAuthor, mapGet, cexMemeNew, cexMemeOld]
  rw [hout]
  intro hpw
  have h01 := (List.pairwise_cons.mp hpw).1 cexMemeOld (by simp)
  norm_num [specHotScore, cexMemeNew, cexMemeOld] at h01

/-- Claim C1 (amended): for every collection of memes, ranking with the
`hot` policy (the default) orders the memes in descending order of the score
`(upvotes − downvotes) + creationTimestampMilliseconds / 1_000_000` — the
timestamp term is `new Date(createdAt).getTime() / 1_000_000`, i.e. the
creation time in MILLISECONDS (equivalently seconds / 1_000), not the
seconds-valued timestamp the spec sentence states. -/
theorem hot_rank_sorted_desc_by_ms_score (s : Store) (limit offset : Nat) :
    (s.getMemes limit offset "hot").Pairwise
      (fun a b => hotScore b ≤ hotScore a) := by
  have hsorted := pairwise_sortDescBy (memeSortKey "hot") (s.memes.map Prod.snd)
  have hslice :
      (jsSlice (sortDescBy (memeSortKey "hot") (s.memes.map Prod.snd))
          offset (offset + limit)).Pairwise
        (fun a b => memeSortKey "hot" b ≤ memeSortKey "hot" a) := by
    refine hsorted.sublist ?_
    exact (List.take_sublist _ _).trans (List.drop_sublist _ _)
  simp only [Store.getMemes, rankMemes]
  rw [List.pairwise_map]
  refine hslice.imp ?_
  intro a b h
  rw [hotScore_attachAuthor, hotScore_attachAuthor]
  rwa [memeSortKey_of_ne (by decide) (by decide),
       memeSortKey_of_ne (by decide) (by decide)] at h

/-- Claim C8: the sort performed by `getMemes` (`rankMemes`, for every
policy string) is stable: the subsequence of memes whose sort key equals any
fixed value `c` is exactly the same, in the same order, before and after
sorting; in particular two memes with equal keys keep their input order. -/
theorem meme_rank_sort_stable (sortBy : String) (l : List Meme) (c : Rat) :
    (rankMemes sortBy l).filter (fun m => decide (memeSortKey sortBy m = c)) =
      l.filter (fun m => decide (memeSortKey sortBy m = c)) :=
  filter_sortDescBy (memeSortKey sortBy) c l

/-- Claim C9: `getMemes` sorts the whole collection first and applies
`offset`/`limit` afterwards (its result is `take limit` of `drop offset` of
the fully ranked list), and an out-of-range offset yields `[]` rather than
an error. -/
theorem getMemes_pagination_after_sort :
    (∀ (s : Store) (limit offset : Nat) (sortBy : String),
        s.memes.length ≤ offset → s.getMemes limit offset sortBy = [])
  ∧ (∀ (s : Store) (limit offset : Nat) (sortBy : String),
        s.getMemes limit offset sortBy =
          (((rankMemes sortBy (s.memes.map Prod.snd)).drop offset).take
              limit).map s.attachAuthor) := by
  constructor
  · intro s limit offset sortBy h
    have hlen : (rankMemes sortBy (s.memes.map Prod.snd)).length ≤ offset := by
      simp only [rankMemes]
      rw [(sortDescBy_perm _ _).length_eq, List.length_map]
      exact h
    simp only [Store.getMemes, jsSlice]
    rw [List.drop_eq_nil_of_le hlen]
    simp
  · intro s limit offset sortBy
    simp only [Store.getMemes, jsSlice, Nat.add_sub_cancel_left]

/-- Claim C10: every `sortBy` string other than `'new'` and `'top'`
(including the source's default `'hot'`, and any unrecognized string, which
is never rejected) makes `getMemes` produce exactly the `hot` ordering. -/
theorem getMemes_unknown_sort_falls_back_to_hot (s : Store)
    (limit offset : Nat) (sortBy : String) (h1 : sortBy ≠ "new")
    (h2 : sortBy ≠ "top") :
    s.getMemes limit offset sortBy = s.getMemes limit offset "hot" := by
  have hfun : memeSortKey sortBy = memeSortKey "hot" := by
    funext m
    rw [memeSortKey_of_ne h1 h2,
        memeSortKey_of_ne (by decide) (by decide)]
  simp only [Store.getMemes, rankMemes, hfun]

/-- Witness for claim C9: ranking the one-meme store with policy `'new'`,
`offset = 1` (the number of memes) and `limit = 10` yields the empty
sequence. -/
theorem getMemes_pagination_after_sort_witness :
    paginationStore.getMemes 10 1 "new" = [] :=
  getMemes_pagination_after_sort.1 paginationStore 10 1 "new" (by decide)

/-- Witness for claim C10: the unrecognized policy string `'spicy'` produces
exactly the `hot` ordering on a concrete store. -/
theorem getMemes_unknown_sort_falls_back_to_hot_witness :
    paginationStore.getMemes 10 0 "spicy" =
      paginationStore.getMemes 10 0 "hot" :=
  getMemes_unknown_sort_falls_back_to_hot paginationStore 10 0 "spicy"
    (by decide) (by decide)

/-! ### Vote transition equations -/

theorem voteMeme_none_eq (s : Store) (id u : Nat) (v : Dir) (m : Meme)
    (hm : mapGet s.memes id = some m)
    (hv : mapGet s.userVotes (VoteKey.meme id u) = none) :
    s.voteMeme id u v =
      .ok (applyDir v m,
        { s with memes := mapSet s.memes id (applyDir v m),
                 userVotes := mapSet s.userVotes (VoteKey.meme id u) v }) := by
  cases v <;> simp [Store.voteMeme, hm, hv, applyDir]

theorem voteMeme_toggle_eq (s : Store) (id u : Nat) (v : Dir) (m : Meme)
    (hm : mapGet s.memes id = some m)
    (hv : mapGet s.userVotes (VoteKey.meme id u) = some v) :
    s.voteMeme id u v =
      .ok (undoDir v m,
        { s with memes := mapSet s.memes id (undoDir v m),
                 userVotes := mapDelete s.userVotes (VoteKey.meme id u) }) := by
  cases v <;> simp [Store.voteMeme, hm, hv, undoDir]

theorem voteMeme_switch_eq (s : Store) (id u : Nat) (v v' : Dir) (m : Meme)
    (hne : v' ≠ v) (hm : mapGet s.memes id = some m)
    (hv : mapGet s.userVotes (VoteKey.meme id u) = some v') :
    s.voteMeme id u v =
      .ok (applyDir v (undoDir v' m),
        { s with memes := mapSet s.memes id (applyDir v (undoDir v' m)),
                 userVotes := mapSet s.userVotes (VoteKey.meme id u) v }) := by
  cases v <;> cases v' <;>
    first
      | exact absurd rfl hne
      | simp [Store.voteMeme, hm, hv, applyDir, undoDir]

theorem voteComment_fresh_eq (s : Store) (id u : Nat) (c : Comment)
    (hc : mapGet s.comments id = some c)
    (hv : mapGet s.userVotes (VoteKey.comment id u) = none) :
    s.voteComment id u =
      .ok ({ c with upvotes := c.upvotes + 1 },
        { s with
            comments := mapSet s.comments id { c with upvotes := c.upvotes + 1 },
            userVotes := mapSet s.userVotes (VoteKey.comment id u) Dir.up }) := by
  simp [Store.voteComment, hc, hv]

theorem voteComment_toggle_eq (s : Store) (id u : Nat) (c : Comment)
    (hc : mapGet s.comments id = some c)
    (hv : mapGet s.userVotes (VoteKey.comment id u) = some Dir.up) :
    s.voteComment id u =
      .ok ({ c with upvotes := c.upvotes - 1 },
        { s with
            comments := mapSet s.comments id { c with upvotes := c.upvotes - 1 },
            userVotes := mapDelete s.userVotes (VoteKey.comment id u) }) := by
  simp [Store.voteComment, hc, hv]

theorem voteComment_down_eq (s : Store) (id u : Nat) (c : Comment)
    (hc : mapGet s.comments id = some c)
    (hv : mapGet s.userVotes (VoteKey.comment id u) = some Dir.down) :
    s.voteComment id u =
      .ok ({ c with upvotes := c.upvotes + 1 },
        { s with
            comments := mapSet s.comments id { c with upvotes := c.upvotes + 1 },
            userVotes := mapSet s.userVotes (VoteKey.comment id u) Dir.up }) := by
  simp [Store.voteComment, hc, hv]

theorem voteResource_fresh_eq (s : Store) (id u : Nat) (v : Dir)
    (r : Resource) (hr : mapGet s.resources id = some r)
    (hv : mapGet s.userVotes (VoteKey.resource id u) = none) :
    s.voteResource id u v =
      .ok ({ r with votes := r.votes + (if v = Dir.up then 1 else -1) },
        { s with
            resources := mapSet s.resources id
              { r with votes := r.votes + (if v = Dir.up then 1 else -1) },
            userVotes := mapSet s.userVotes (VoteKey.resource id u) v }) := by
  cases v <;> simp [Store.voteResource, hr, hv]

theorem voteResource_toggle_eq (s : Store) (id u : Nat) (v : Dir)
    (r : Resource) (hr : mapGet s.resources id = some r)
    (hv : mapGet s.userVotes (VoteKey.resource id u) = some v) :
    s.voteResource id u v =
      .ok ({ r with votes := r.votes + (if v = Dir.up then -1 else 1) },
        { s with
            resources := mapSet s.resources id
              { r with votes := r.votes + (if v = Dir.up then -1 else 1) },
            userVotes := mapDelete s.userVotes (VoteKey.resource id u) }) := by
  cases v <;> simp [Store.voteResource, hr, hv]

theorem voteResource_switch_eq (s : Store) (id u : Nat) (v v' : Dir)
    (r : Resource) (hne : v' ≠ v) (hr : mapGet s.resources id = some r)
    (hv : mapGet s.userVotes (VoteKey.resource id u) = some v') :
    s.voteResource id u v =
      .ok ({ r with votes := r.votes + (if v = Dir.up then 2 else -2) },
        { s with
            resources := mapSet s.resources id
              { r with votes := r.votes + (if v = Dir.up then 2 else -2) },
            userVotes := mapSet s.userVotes (VoteKey.resource id u) v }) := by
  cases v <;> cases v' <;>
    first
      | exact absurd rfl hne
      | simp [Store.voteResource, hr, hv]

theorem undoDir_applyDir (v : Dir) (m : Meme) :
    undoDir v (applyDir v m) = m := by
  cases v <;> simp [applyDir, undoDir]

/-- Claim C3: `voteMeme` follows the toggle/switch state machine.  With no
prior record for `(meme, user)` it records the direction and adds 1 to that
direction's counter; with a prior record equal to the direction it deletes
the record and subtracts 1 from that counter; with a different prior record
it overwrites the record, subtracts 1 from the old direction's counter and
adds 1 to the new one. -/
theorem voteMeme_toggle_state_machine (s : Store) (id u : Nat) (v : Dir)
    (m : Meme) (hm : mapGet s.memes id = some m) :
    (mapGet s.userVotes (VoteKey.meme id u) = none →
      s.voteMeme id u v =
        .ok (applyDir v m,
          { s with memes := mapSet s.memes id (applyDir v m),
                   userVotes := mapSet s.userVotes (VoteKey.meme id u) v })) ∧
    (mapGet s.userVotes (VoteKey.meme id u) = some v →
      s.voteMeme id u v =
        .ok (undoDir v m,
          { s with memes := mapSet s.memes id (undoDir v m),
                   userVotes := mapDelete s.userVotes (VoteKey.meme id u) })) ∧
    (∀ v', v' ≠ v → mapGet s.userVotes (VoteKey.meme id u) = some v' →
      s.voteMeme id u v =
        .ok (applyDir v (undoDir v' m),
          { s with memes := mapSet s.memes id (applyDir v (undoDir v' m)),
                   userVotes := mapSet s.userVotes (VoteKey.meme id u) v })) :=
  ⟨fun hv => voteMeme_none_eq s id u v m hm hv,
   fun hv => voteMeme_toggle_eq s id u v m hm hv,
   fun v' hne hv => voteMeme_switch_eq s id u v v' m hne hm hv⟩

/-- Witness for claim C3, including the claim's concrete scenario: from
counters `{0,0}`, user 1 voting `up` gives `{1,0}`, voting `up` again gives
`{0,0}`, voting `down` gives `{0,1}`, and user 2 voting `up` gives
`{1,1}`. -/
theorem voteMeme_toggle_state_machine_witness :
    (freshSubjectStore.voteMeme 1 1 Dir.up =
      .ok (applyDir Dir.up wMeme,
        { freshSubjectStore with
            memes := mapSet freshSubjectStore.memes 1 (applyDir Dir.up wMeme),
            userVotes := mapSet freshSubjectStore.userVotes
              (VoteKey.meme 1 1) Dir.up })) ∧
    mapGet (applyOps freshSubjectStore
        [Op.voteMeme 1 1 Dir.up]).memes 1 =
      some { wMeme with upvotes := 1 } ∧
    mapGet (applyOps freshSubjectStore
        [Op.voteMeme 1 1 Dir.up, Op.voteMeme 1 1 Dir.up]).memes 1 =
      some wMeme ∧
    mapGet (applyOps freshSubjectStore
        [Op.voteMeme 1 1 Dir.up, Op.voteMeme 1 1 Dir.up,
         Op.voteMeme 1 1 Dir.down]).memes 1 =
      some { wMeme with downvotes := 1 } ∧
    mapGet (applyOps freshSubjectStore
        [Op.voteMeme 1 1 Dir.up, Op.voteMeme 1 1 Dir.up,
         Op.voteMeme 1 1 Dir.down, Op.voteMeme 1 2 Dir.up]).memes 1 =
      some { wMeme with upvotes := 1, downvotes := 1 } :=
  ⟨(voteMeme_toggle_state_machine freshSubjectStore 1 1 Dir.up wMeme rfl).1
      rfl,
   by decide, by decide, by decide, by decide⟩

/-- Claim C4: `voteResource` changes the signed `votes` counter by the
destination's signed value minus the origin's (`up = +1`, `down = -1`, no
record `= 0`): a fresh vote adds `±1`, a switch adds `±2`, a toggle-off
subtracts the old direction's value; the record is deleted on toggle-off and
set to the new direction otherwise. -/
theorem voteResource_signed_delta (s : Store) (id u : Nat) (v : Dir)
    (r : Resource) (hr : mapGet s.resources id = some r) :
    s.voteResource id u v =
      .ok ({ r with votes := r.votes +
              (recSign (if mapGet s.userVotes (VoteKey.resource id u) = some v
                        then none else some v) -
                recSign (mapGet s.userVotes (VoteKey.resource id u))) },
        { s with
            resources := mapSet s.resources id
              { r with votes := r.votes +
                  (recSign
                      (if mapGet s.userVotes (VoteKey.resource id u) = some v
                       then none else some v) -
                    recSign (mapGet s.userVotes (VoteKey.resource id u))) },
            userVotes :=
              if mapGet s.userVotes (VoteKey.resource id u) = some v
              then mapDelete s.userVotes (VoteKey.resource id u)
              else mapSet s.userVotes (VoteKey.resource id u) v }) := by
  rcases hv : mapGet s.userVotes (VoteKey.resource id u) with _ | v'
  · rw [voteResource_fresh_eq s id u v r hr hv]
    cases v <;> simp [hv, recSign, dirSign]
  · by_cases hvv : v' = v
    · subst hvv
      rw [voteResource_toggle_eq s id u v' r hr hv]
      cases v' <;> simp [hv, recSign, dirSign]
    · rw [voteResource_switch_eq s id u v v' r hvv hr hv]
      cases v <;> cases v' <;>
        first
          | exact absurd rfl hvv
          | simp [hv, recSign, dirSign]

/-- Witness for claim C4, including the claim's concrete scenario: from
`votes = 0`, voting `up` gives `1`, then `down` gives `-1`, then `down`
again gives `0`. -/
theorem voteResource_signed_delta_witness :
    (freshSubjectStore.voteResource 1 1 Dir.up =
      .ok ({ wResource with votes := wResource.votes +
              (recSign
                  (if mapGet freshSubjectStore.userVotes
                        (VoteKey.resource 1 1) = some Dir.up
                   then none else some Dir.up) -
                recSign (mapGet freshSubjectStore.userVotes
                  (VoteKey.resource 1 1))) },
        { freshSubjectStore with
            resources := mapSet freshSubjectStore.resources 1
              { wResource with votes := wResource.votes +
                  (recSign
                      (if mapGet freshSubjectStore.userVotes
                            (VoteKey.resource 1 1) = some Dir.up
                       then none else some Dir.up) -
                    recSign (mapGet freshSubjectStore.userVotes
                      (VoteKey.resource 1 1))) },
            userVotes :=
              if mapGet freshSubjectStore.userVotes (VoteKey.resource 1 1) =
                  some Dir.up
              then mapDelete freshSubjectStore.userVotes (VoteKey.resource 1 1)
              else mapSet freshSubjectStore.userVotes (VoteKey.resource 1 1)
                Dir.up })) ∧
    mapGet (applyOps freshSubjectStore
        [Op.voteResource 1 1 Dir.up]).resources 1 =
      some { wResource with votes := 1 } ∧
    mapGet (applyOps freshSubjectStore
        [Op.voteResource 1 1 Dir.up, Op.voteResource 1 1 Dir.down]).resources
        1 =
      some { wResource with votes := -1 } ∧
    mapGet (applyOps freshSubjectStore
        [Op.voteResource 1 1 Dir.up, Op.voteResource 1 1 Dir.down,
         Op.voteResource 1 1 Dir.down]).resources 1 =
      some wResource :=
  ⟨voteResource_signed_delta freshSubjectStore 1 1 Dir.up wResource rfl,
   by decide, by decide, by decide⟩

/-- Claim C5: voting on a subject id that is not in the corresponding store
fails with the `not found` error for its kind, and the store — ledger and
all counters — is left unchanged: existence is checked before any
mutation. -/
theorem vote_missing_subject_not_found :
    (∀ (s : Store) (id u : Nat) (v : Dir), mapGet s.memes id = none →
        s.voteMeme id u v = .error "Meme not found" ∧
        applyOp s (Op.voteMeme id u v) = s) ∧
    (∀ (s : Store) (id u : Nat), mapGet s.comments id = none →
        s.voteComment id u = .error "Comment not found" ∧
        applyOp s (Op.voteComment id u) = s) ∧
    (∀ (s : Store) (id u : Nat) (v : Dir), mapGet s.resources id = none →
        s.voteResource id u v = .error "Resource not found" ∧
        applyOp s (Op.voteResource id u v) = s) := by
  refine ⟨?_, ?_, ?_⟩
  · intro s id u v h
    have he : s.voteMeme id u v = .error "Meme not found" := by
      simp [Store.voteMeme, h]
    exact ⟨he, by simp [applyOp, he]⟩
  · intro s id u h
    have he : s.voteComment id u = .error "Comment not found" := by
      simp [Store.voteComment, h]
    exact ⟨he, by simp [applyOp, he]⟩
  · intro s id u v h
    have he : s.voteResource id u v = .error "Resource not found" := by
      simp [Store.voteResource, h]
    exact ⟨he, by simp [applyOp, he]⟩

/-- Witness for claim C5, on the freshly constructed store (which has no
memes, no comments, and only the three seeded resources). -/
theorem vote_missing_subject_not_found_witness :
    ((MemStorage.new 0).voteMeme 1 1 Dir.up = .error "Meme not found" ∧
      applyOp (MemStorage.new 0) (Op.voteMeme 1 1 Dir.up) =
        MemStorage.new 0) ∧
    ((MemStorage.new 0).voteComment 1 1 = .error "Comment not found" ∧
      applyOp (MemStorage.new 0) (Op.voteComment 1 1) = MemStorage.new 0) ∧
    ((MemStorage.new 0).voteResource 99 1 Dir.down =
        .error "Resource not found" ∧
      applyOp (MemStorage.new 0) (Op.voteResource 99 1 Dir.down) =
        MemStorage.new 0) :=
  ⟨vote_missing_subject_not_found.1 (MemStorage.new 0) 1 1 Dir.up rfl,
   vote_missing_subject_not_found.2.1 (MemStorage.new 0) 1 1 rfl,
   vote_missing_subject_not_found.2.2 (MemStorage.new 0) 99 1 Dir.down rfl⟩

/-- Claim C6, counterexample: a `down` direction cast on a comment through
the comment-vote route is NOT rejected with an `InvalidDirection` error —
the route never reads the requested direction, so the call succeeds as an
`up` vote, the comment's `upvotes` counter moves from 0 to 1, an `up` record
is added to the ledger, and the result is identical to an `up` request. -/
theorem comment_vote_down_not_rejected_cex :
    commentVoteRoute freshSubjectStore 1 7 "down" =
      .ok ({ wComment with upvotes := 1 },
        { freshSubjectStore with
            comments := mapSet freshSubjectStore.comments 1
              { wComment with upvotes := 1 },
            userVotes := mapSet freshSubjectStore.userVotes
              (VoteKey.comment 1 7) Dir.up }) ∧
    commentVoteRoute freshSubjectStore 1 7 "down" =
      commentVoteRoute freshSubjectStore 1 7 "up" :=
  ⟨rfl, rfl⟩

/-- Claim C6 (amended): the comment-vote route performs no direction
validation at all — it ignores whatever direction the request body carries
(including `down`) and always casts `up` via `voteComment`; with no prior
record the call succeeds, increments the comment's `upvotes` by 1 and
records an `up` vote in the ledger.  No `InvalidDirection` error exists
anywhere in the code. -/
theorem comment_vote_route_ignores_direction (s : Store) (id u : Nat)
    (bodyVote : String) (c : Comment)
    (hc : mapGet s.comments id = some c)
    (hnone : mapGet s.userVotes (VoteKey.comment id u) = none) :
    commentVoteRoute s id u bodyVote =
      .ok ({ c with upvotes := c.upvotes + 1 },
        { s with
            comments := mapSet s.comments id { c with upvotes := c.upvotes + 1 },
            userVotes := mapSet s.userVotes (VoteKey.comment id u) Dir.up }) :=
  voteComment_fresh_eq s id u c hc hnone

/-- Witness for claim C6's amended statement, with the direction string
`'down'`. -/
theorem comment_vote_route_ignores_direction_witness :
    commentVoteRoute freshSubjectStore 1 9 "down" =
      .ok ({ wComment with upvotes := 1 },
        { freshSubjectStore with
            comments := mapSet freshSubjectStore.comments 1
              { wComment with upvotes := 1 },
            userVotes := mapSet freshSubjectStore.userVotes
              (VoteKey.comment 1 9) Dir.up }) :=
  comment_vote_route_ignores_direction freshSubjectStore 1 9 "down" wComment
    rfl rfl

/-- Claim C7: on a subject with no active vote records, casting the same
legal direction twice succeeds both times, restores the subject's stored
record (counters included) to exactly its original value, and leaves no
active vote record for the `(subject, user)` pair. -/
theorem double_vote_restores_counters :
    (∀ (s : Store) (id u : Nat) (v : Dir) (m : Meme),
        mapGet s.memes id = some m →
        (∀ u', mapGet s.userVotes (VoteKey.meme id u') = none) →
        ∃ m1 s1 m2 s2,
          s.voteMeme id u v = .ok (m1, s1) ∧
          s1.voteMeme id u v = .ok (m2, s2) ∧
          mapGet s2.memes id = some m ∧
          mapGet s2.userVotes (VoteKey.meme id u) = none) ∧
    (∀ (s : Store) (id u : Nat) (c : Comment),
        mapGet s.comments id = some c →
        (∀ u', mapGet s.userVotes (VoteKey.comment id u') = none) →
        ∃ c1 s1 c2 s2,
          s.voteComment id u = .ok (c1, s1) ∧
          s1.voteComment id u = .ok (c2, s2) ∧
          mapGet s2.comments id = some c ∧
          mapGet s2.userVotes (VoteKey.comment id u) = none) ∧
    (∀ (s : Store) (id u : Nat) (v : Dir) (r : Resource),
        mapGet s.resources id = some r →
        (∀ u', mapGet s.userVotes (VoteKey.resource id u') = none) →
        ∃ r1 s1 r2 s2,
          s.voteResource id u v = .ok (r1, s1) ∧
          s1.voteResource id u v = .ok (r2, s2) ∧
          mapGet s2.resources id = some r ∧
          mapGet s2.userVotes (VoteKey.resource id u) = none) := by
  refine ⟨?_, ?_, ?_⟩
  · intro s id u v m hm hnone
    have h1 := voteMeme_none_eq s id u v m hm (hnone u)
    have hm1 : mapGet (mapSet s.memes id (applyDir v m)) id =
        some (applyDir v m) := mapGet_mapSet_self _ _ _
    have hv1 : mapGet (mapSet s.userVotes (VoteKey.meme id u) v)
        (VoteKey.meme id u) = some v := mapGet_mapSet_self _ _ _
    have h2 := voteMeme_toggle_eq
      { s with memes := mapSet s.memes id (applyDir v m),
               userVotes := mapSet s.userVotes (VoteKey.meme id u) v }
      id u v (applyDir v m) hm1 hv1
    refine ⟨_, _, _, _, h1, h2, ?_, ?_⟩
    · show mapGet (mapSet (mapSet s.memes id (applyDir v m)) id
          (undoDir v (applyDir v m))) id = some m
      rw [mapSet_mapSet_self, undoDir_applyDir, mapGet_mapSet_self]
    · show mapGet (mapDelete (mapSet s.userVotes (VoteKey.meme id u) v)
          (VoteKey.meme id u)) (VoteKey.meme id u) = none
      rw [mapDelete_mapSet_of_get_none (hnone u)]
      exact hnone u
  · intro s id u c hc hnone
    have h1 := voteComment_fresh_eq s id u c hc (hnone u)
    have hc1 : mapGet (mapSet s.comments id { c with upvotes := c.upvotes + 1 })
        id = some { c with upvotes := c.upvotes + 1 } := mapGet_mapSet_self _ _ _
    have hv1 : mapGet (mapSet s.userVotes (VoteKey.comment id u) Dir.up)
        (VoteKey.comment id u) = some Dir.up := mapGet_mapSet_self _ _ _
    have h2 := voteComment_toggle_eq
      { s with comments := mapSet s.comments id { c with upvotes := c.upvotes + 1 },
               userVotes := mapSet s.userVotes (VoteKey.comment id u) Dir.up }
      id u { c with upvotes := c.upvotes + 1 } hc1 hv1
    refine ⟨_, _, _, _, h1, h2, ?_, ?_⟩
    · show mapGet (mapSet (mapSet s.comments id _) id _) id = some c
      rw [mapSet_mapSet_self]
      have hcc : ({ { c with upvotes := c.upvotes + 1 } with
          upvotes := ({ c with upvotes := c.upvotes + 1 } : Comment).upvotes - 1 } :
            Comment) = c := by
        simp
      rw [hcc, mapGet_mapSet_self]
    · show mapGet (mapDelete (mapSet s.userVotes (VoteKey.comment id u) Dir.up)
          (VoteKey.comment id u)) (VoteKey.comment id u) = none
      rw [mapDelete_mapSet_of_get_none (hnone u)]
      exact hnone u
  · intro s id u v r hr hnone
    have h1 := voteResource_fresh_eq s id u v r hr (hnone u)
    have hr1 : mapGet (mapSet s.resources id
        { r with votes := r.votes + (if v = Dir.up then 1 else -1) }) id =
        some { r with votes := r.votes + (if v = Dir.up then 1 else -1) } :=
      mapGet_mapSet_self _ _ _
    have hv1 : mapGet (mapSet s.userVotes (VoteKey.resource id u) v)
        (VoteKey.resource id u) = some v := mapGet_mapSet_self _ _ _
    have h2 := voteResource_toggle_eq
      { s with resources := mapSet s.resources id
                 { r with votes := r.votes + (if v = Dir.up then 1 else -1) },
               userVotes := mapSet s.userVotes (VoteKey.resource id u) v }
      id u v { r with votes := r.votes + (if v = Dir.up then 1 else -1) } hr1 hv1
    refine ⟨_, _, _, _, h1, h2, ?_, ?_⟩
    · show mapGet (mapSet (mapSet s.resources id _) id _) id = some r
      rw [mapSet_mapSet_self]
      have hrr : ({ { r with votes := r.votes + (if v = Dir.up then 1 else -1) } with
          votes := ({ r with votes := r.votes + (if v = Dir.up then 1 else -1) } :
              Resource).votes + (if v = Dir.up then -1 else 1) } : Resource) = r := by
        cases v <;> simp
      rw [hrr, mapGet_mapSet_self]
    · show mapGet (mapDelete (mapSet s.userVotes (VoteKey.resource id u) v)
          (VoteKey.resource id u)) (VoteKey.resource id u) = none
      rw [mapDelete_mapSet_of_get_none (hnone u)]
      exact hnone u

/-- Witness for claim C7: double `up` votes on the fresh meme of
`freshSubjectStore` restore its stored record and leave no ledger entry. -/
theorem double_vote_restores_counters_witness :
    mapGet (applyOps freshSubjectStore
        [Op.voteMeme 1 1 Dir.up, Op.voteMeme 1 1 Dir.up]).memes 1 =
      some wMeme ∧
    mapGet (applyOps freshSubjectStore
        [Op.voteMeme 1 1 Dir.up, Op.voteMeme 1 1 Dir.up]).userVotes
        (VoteKey.meme 1 1) = none := by
  obtain ⟨m1, s1, m2, s2, h1, h2, h3, h4⟩ :=
    double_vote_restores_counters.1 freshSubjectStore 1 1 Dir.up wMeme rfl
      (fun u' => rfl)
  have hs : applyOps freshSubjectStore
      [Op.voteMeme 1 1 Dir.up, Op.voteMeme 1 1 Dir.up] = s2 := by
    simp [applyOps, applyOp, h1, h2]
  rw [hs]
  exact ⟨h3, h4⟩

/-! ### Well-formedness preservation -/

theorem mapGet_mapSet_isSome {κ α : Type} [DecidableEq κ] {l : List (κ × α)} (k0 : κ)
    (v : α) {k : κ} {w : α} (h : mapGet l k = some w) :
    ∃ w', mapGet (mapSet l k0 v) k = some w' := by
  by_cases hk : k = k0
  · subst hk
    exact ⟨v, mapGet_mapSet_self _ _ _⟩
  · exact ⟨w, by rwa [mapGet_mapSet_ne _ _ hk]⟩

theorem storeWF_vote_meme (s : Store) {id : Nat} {w : Meme}
    (hwf : StoreWF s) (hm : mapGet s.memes id = some w) (m' : Meme)
    (u : Nat) (d : Dir) (votes' : List (VoteKey × Dir))
    (hmem : ∀ q ∈ votes', q = (VoteKey.meme id u, d) ∨ q ∈ s.userVotes) :
    StoreWF { s with memes := mapSet s.memes id m', userVotes := votes' } := by
  refine ⟨?_, ?_, ?_, ?_, ?_, ?_, ?_⟩
  · show ((mapSet s.memes id m').map Prod.fst).Nodup
    rw [keys_mapSet_of_get_some hm]
    exact hwf.memeKeysNodup
  · exact hwf.commentKeysNodup
  · exact hwf.resourceKeysNodup
  · intro p hp
    rcases mem_mapSet hp with rfl | hp'
    · exact hwf.memeKeysLt (id, w) (mapGet_mem hm)
    · exact hwf.memeKeysLt _ hp'
  · exact hwf.commentKeysLt
  · exact hwf.resourceKeysLt
  · intro q hq
    rcases hmem q hq with rfl | hq'
    · exact ⟨m', mapGet_mapSet_self _ _ _⟩
    · have hlive := hwf.liveKeys q hq'
      obtain ⟨k, d0⟩ := q
      cases k with
      | meme id2 u2 =>
          obtain ⟨w2, hw2⟩ := hlive
          exact mapGet_mapSet_isSome id m' hw2
      | comment id2 u2 => exact hlive
      | resource id2 u2 => exact hlive

theorem storeWF_vote_comment (s : Store) {id : Nat} {w : Comment}
    (hwf : StoreWF s) (hc : mapGet s.comments id = some w) (c' : Comment)
    (u : Nat) (d : Dir) (votes' : List (VoteKey × Dir))
    (hmem : ∀ q ∈ votes', q = (VoteKey.comment id u, d) ∨ q ∈ s.userVotes) :
    StoreWF { s with comments := mapSet s.comments id c',
                     userVotes := votes' } := by
  refine ⟨?_, ?_, ?_, ?_, ?_, ?_, ?_⟩
  · exact hwf.memeKeysNodup
  · show ((mapSet s.comments id c').map Prod.fst).Nodup
    rw [keys_mapSet_of_get_some hc]
    exact hwf.commentKeysNodup
  · exact hwf.resourceKeysNodup
  · exact hwf.memeKeysLt
  · intro p hp
    rcases mem_mapSet hp with rfl | hp'
    · exact hwf.commentKeysLt (id, w) (mapGet_mem hc)
    · exact hwf.commentKeysLt _ hp'
  · exact hwf.resourceKeysLt
  · intro q hq
    rcases hmem q hq with rfl | hq'
    · exact ⟨c', mapGet_mapSet_self _ _ _⟩
    · have hlive := hwf.liveKeys q hq'
      obtain ⟨k, d0⟩ := q
      cases k with
      | meme id2 u2 => exact hlive
      | comment id2 u2 =>
          obtain ⟨w2, hw2⟩ := hlive
          exact mapGet_mapSet_isSome id c' hw2
      | resource id2 u2 => exact hlive

theorem storeWF_vote_resource (s : Store) {id : Nat} {w : Resource}
    (hwf : StoreWF s) (hr : mapGet s.resources id = some w) (r' : Resource)
    (u : Nat) (d : Dir) (votes' : List (VoteKey × Dir))
    (hmem : ∀ q ∈ votes', q = (VoteKey.resource id u, d) ∨ q ∈ s.userVotes) :
    StoreWF { s with resources := mapSet s.resources id r',
                     userVotes := votes' } := by
  refine ⟨?_, ?_, ?_, ?_, ?_, ?_, ?_⟩
  · exact hwf.memeKeysNodup
  · exact hwf.commentKeysNodup
  · show ((mapSet s.resources id r').map Prod.fst).Nodup
    rw [keys_mapSet_of_get_some hr]
    exact hwf.resourceKeysNodup
  · exact hwf.memeKeysLt
  · exact hwf.commentKeysLt
  · intro p hp
    rcases mem_mapSet hp with rfl | hp'
    · exact hwf.resourceKeysLt (id, w) (mapGet_mem hr)
    · exact hwf.resourceKeysLt _ hp'
  · intro q hq
    rcases hmem q hq with rfl | hq'
    · exact ⟨r', mapGet_mapSet_self _ _ _⟩
    · have hlive := hwf.liveKeys q hq'
      obtain ⟨k, d0⟩ := q
      cases k with
      | meme id2 u2 => exact hlive
      | comment id2 u2 => exact hlive
      | resource id2 u2 =>
          obtain ⟨w2, hw2⟩ := hlive
          exact mapGet_mapSet_isSome id r' hw2

/-! ### Fresh ids carry no ledger records -/

theorem countP_fresh_meme (s : Store) (hwf : StoreWF s) (d : Dir) :
    countP s.userVotes (isMemeVote s.memeId d) = 0 := by
  apply countP_eq_zero
  intro q hq
  have hlive := hwf.liveKeys q hq
  obtain ⟨k, w⟩ := q
  cases k with
  | meme id2 u2 =>
      obtain ⟨m, hm⟩ := hlive
      have hlt := hwf.memeKeysLt _ (mapGet_mem hm)
      have hne : id2 ≠ s.memeId := by
        intro h
        rw [h] at hlt
        exact lt_irrefl _ hlt
      simp [isMemeVote, hne]
  | comment id2 u2 => rfl
  | resource id2 u2 => rfl

theorem countP_fresh_comment (s : Store) (hwf : StoreWF s) :
    countP s.userVotes (isCommentUpVote s.commentId) = 0 := by
  apply countP_eq_zero
  intro q hq
  have hlive := hwf.liveKeys q hq
  obtain ⟨k, w⟩ := q
  cases k with
  | meme id2 u2 => rfl
  | comment id2 u2 =>
      obtain ⟨c, hc⟩ := hlive
      have hlt := hwf.commentKeysLt _ (mapGet_mem hc)
      have hne : id2 ≠ s.commentId := by
        intro h
        rw [h] at hlt
        exact lt_irrefl _ hlt
      simp [isCommentUpVote, hne]
  | resource id2 u2 => rfl

theorem countP_fresh_resource (s : Store) (hwf : StoreWF s) (d : Dir) :
    countP s.userVotes (isResourceVote s.resourceId d) = 0 := by
  apply countP_eq_zero
  intro q hq
  have hlive := hwf.liveKeys q hq
  obtain ⟨k, w⟩ := q
  cases k with
  | meme id2 u2 => rfl
  | comment id2 u2 => rfl
  | resource id2 u2 =>
      obtain ⟨r, hr⟩ := hlive
      have hlt := hwf.resourceKeysLt _ (mapGet_mem hr)
      have hne : id2 ≠ s.resourceId := by
        intro h
        rw [h] at hlt
        exact lt_irrefl _ hlt
      simp [isResourceVote, hne]

/-! ### The ledger invariant is preserved by every operation -/

theorem invStep_voteMeme (s : Store) (id u : Nat) (v : Dir)
    (hwf : StoreWF s) (hinv : LedgerInv s) :
    StoreWF (applyOp s (Op.voteMeme id u v)) ∧
      LedgerInv (applyOp s (Op.voteMeme id u v)) := by
  rcases hm : mapGet s.memes id with _ | m
  · have heq : applyOp s (Op.voteMeme id u v) = s := by
      simp [applyOp, Store.voteMeme, hm]
    rw [heq]
    exact ⟨hwf, hinv⟩
  · rcases hv : mapGet s.userVotes (VoteKey.meme id u) with _ | v'
    · -- no prior record: record v, bump the v counter
      have heq : applyOp s (Op.voteMeme id u v) =
          { s with memes := mapSet s.memes id (applyDir v m),
                   userVotes := mapSet s.userVotes (VoteKey.meme id u) v } := by
        simp [applyOp, voteMeme_none_eq s id u v m hm hv]
      rw [heq]
      refine ⟨storeWF_vote_meme s hwf hm _ u v _ (fun q hq => mem_mapSet hq),
        ?_, ?_, ?_⟩
      · intro p hp
        rw [mem_mapSet_iff hwf.memeKeysNodup hm] at hp
        rcases hp with rfl | ⟨hp', hpne⟩
        · obtain ⟨hup, hdown⟩ := hinv.1 (id, m) (mapGet_mem hm)
          have hup2 : m.upvotes = countP s.userVotes (isMemeVote id Dir.up) := hup
          have hdown2 : m.downvotes = countP s.userVotes (isMemeVote id Dir.down) :=
            hdown
          constructor
          · rw [countP_mapSet_of_get_none hv]
            cases v <;> simp [applyDir, entryCount, isMemeVote, hup2]
          · rw [countP_mapSet_of_get_none hv]
            cases v <;> simp [applyDir, entryCount, isMemeVote, hdown2]
        · obtain ⟨hup, hdown⟩ := hinv.1 p hp'
          have hne2 : id ≠ p.1 := fun h => hpne h.symm
          constructor
          · rw [countP_mapSet_of_get_none hv]
            simp [entryCount, isMemeVote, hne2, hup]
          · rw [countP_mapSet_of_get_none hv]
            simp [entryCount, isMemeVote, hne2, hdown]
      · intro p hp
        have hcp := hinv.2.1 p hp
        rw [countP_mapSet_of_get_none hv]
        simp [entryCount, isCommentUpVote, hcp]
      · intro p hp
        have hrp := hinv.2.2 p hp
        rw [countP_mapSet_of_get_none hv, countP_mapSet_of_get_none hv]
        simp [entryCount, isResourceVote, hrp]
    · by_cases hvv : v' = v
      · -- same prior record: toggle off
        subst hvv
        have heq : applyOp s (Op.voteMeme id u v') =
            { s with memes := mapSet s.memes id (undoDir v' m),
                     userVotes := mapDelete s.userVotes (VoteKey.meme id u) } := by
          simp [applyOp, voteMeme_toggle_eq s id u v' m hm hv]
        rw [heq]
        refine ⟨storeWF_vote_meme s hwf hm _ u v' _
            (fun q hq => Or.inr (mem_mapDelete hq)), ?_, ?_, ?_⟩
        · intro p hp
          rw [mem_mapSet_iff hwf.memeKeysNodup hm] at hp
          rcases hp with rfl | ⟨hp', hpne⟩
          · obtain ⟨hup, hdown⟩ := hinv.1 (id, m) (mapGet_mem hm)
            have hup2 : m.upvotes = countP s.userVotes (isMemeVote id Dir.up) := hup
            have hdown2 : m.downvotes = countP s.userVotes (isMemeVote id Dir.down) :=
              hdown
            constructor
            · rw [countP_mapDelete_of_get_some hv]
              cases v' <;> simp [undoDir, entryCount, isMemeVote, hup2]
            · rw [countP_mapDelete_of_get_some hv]
              cases v' <;> simp [undoDir, entryCount, isMemeVote, hdown2]
          · obtain ⟨hup, hdown⟩ := hinv.1 p hp'
            have hne2 : id ≠ p.1 := fun h => hpne h.symm
            constructor
            · rw [countP_mapDelete_of_get_some hv]
              simp [entryCount, isMemeVote, hne2, hup]
            · rw [countP_mapDelete_of_get_some hv]
              simp [entryCount, isMemeVote, hne2, hdown]
        · intro p hp
          have hcp := hinv.2.1 p hp
          rw [countP_mapDelete_of_get_some hv]
          simp [entryCount, isCommentUpVote, hcp]
        · intro p hp
          have hrp := hinv.2.2 p hp
          rw [countP_mapDelete_of_get_some hv, countP_mapDelete_of_get_some hv]
          simp [entryCount, isResourceVote, hrp]
      · -- different prior record: switch
        have heq : applyOp s (Op.voteMeme id u v) =
            { s with memes := mapSet s.memes id (applyDir v (undoDir v' m)),
                     userVotes := mapSet s.userVotes (VoteKey.meme id u) v } := by
          simp [applyOp, voteMeme_switch_eq s id u v v' m hvv hm hv]
        rw [heq]
        refine ⟨storeWF_vote_meme s hwf hm _ u v _ (fun q hq => mem_mapSet hq),
          ?_, ?_, ?_⟩
        · intro p hp
          rw [mem_mapSet_iff hwf.memeKeysNodup hm] at hp
          rcases hp with rfl | ⟨hp', hpne⟩
          · obtain ⟨hup, hdown⟩ := hinv.1 (id, m) (mapGet_mem hm)
            have hup2 : m.upvotes = countP s.userVotes (isMemeVote id Dir.up) := hup
            have hdown2 : m.downvotes = countP s.userVotes (isMemeVote id Dir.down) :=
              hdown
            constructor
            · rw [countP_mapSet_of_get_some hv]
              cases v <;> cases v' <;>
                first
                  | exact absurd rfl hvv
                  | simp [applyDir, undoDir, entryCount, isMemeVote, hup2]
            · rw [countP_mapSet_of_get_some hv]
              cases v <;> cases v' <;>
                first
                  | exact absurd rfl hvv
                  | simp [applyDir, undoDir, entryCount, isMemeVote, hdown2]
          · obtain ⟨hup, hdown⟩ := hinv.1 p hp'
            have hne2 : id ≠ p.1 := fun h => hpne h.symm
            constructor
            · rw [countP_mapSet_of_get_some hv]
              simp [entryCount, isMemeVote, hne2, hup]
            · rw [countP_mapSet_of_get_some hv]
              simp [entryCount, isMemeVote, hne2, hdown]
        · intro p hp
          have hcp := hinv.2.1 p hp
          rw [countP_mapSet_of_get_some hv]
          simp [entryCount, isCommentUpVote, hcp]
        · intro p hp
          have hrp := hinv.2.2 p hp
          rw [countP_mapSet_of_get_some hv, countP_mapSet_of_get_some hv]
          simp [entryCount, isResourceVote, hrp]

theorem invStep_voteComment (s : Store) (id u : Nat)
    (hwf : StoreWF s) (hinv : LedgerInv s) :
    StoreWF (applyOp s (Op.voteComment id u)) ∧
      LedgerInv (applyOp s (Op.voteComment id u)) := by
  rcases hc : mapGet s.comments id with _ | c
  · have heq : applyOp s (Op.voteComment id u) = s := by
      simp [applyOp, Store.voteComment, hc]
    rw [heq]
    exact ⟨hwf, hinv⟩
  · rcases hv : mapGet s.userVotes (VoteKey.comment id u) with _ | v'
    · -- no prior record: up-vote recorded
      have heq : applyOp s (Op.voteComment id u) =
          { s with
              comments := mapSet s.comments id
                { c with upvotes := c.upvotes + 1 },
              userVotes := mapSet s.userVotes (VoteKey.comment id u)
                Dir.up } := by
        simp [applyOp, voteComment_fresh_eq s id u c hc hv]
      rw [heq]
      refine ⟨storeWF_vote_comment s hwf hc _ u Dir.up _
          (fun q hq => mem_mapSet hq), ?_, ?_, ?_⟩
      · intro p hp
        obtain ⟨hup, hdown⟩ := hinv.1 p hp
        constructor
        · rw [countP_mapSet_of_get_none hv]
          simp [entryCount, isMemeVote, hup]
        · rw [countP_mapSet_of_get_none hv]
          simp [entryCount, isMemeVote, hdown]
      · intro p hp
        rw [mem_mapSet_iff hwf.commentKeysNodup hc] at hp
        rcases hp with rfl | ⟨hp', hpne⟩
        · have hcp : c.upvotes = countP s.userVotes (isCommentUpVote id) :=
            hinv.2.1 (id, c) (mapGet_mem hc)
          rw [countP_mapSet_of_get_none hv]
          simp [entryCount, isCommentUpVote, hcp]
        · have hcp := hinv.2.1 p hp'
          have hne2 : id ≠ p.1 := fun h => hpne h.symm
          rw [countP_mapSet_of_get_none hv]
          simp [entryCount, isCommentUpVote, hne2, hcp]
      · intro p hp
        have hrp := hinv.2.2 p hp
        rw [countP_mapSet_of_get_none hv, countP_mapSet_of_get_none hv]
        simp [entryCount, isResourceVote, hrp]
    · cases v' with
      | up =>
          -- prior up record: toggle off
          have heq : applyOp s (Op.voteComment id u) =
              { s with
                  comments := mapSet s.comments id
                    { c with upvotes := c.upvotes - 1 },
                  userVotes := mapDelete s.userVotes
                    (VoteKey.comment id u) } := by
            simp [applyOp, voteComment_toggle_eq s id u c hc hv]
          rw [heq]
          refine ⟨storeWF_vote_comment s hwf hc _ u Dir.up _
              (fun q hq => Or.inr (mem_mapDelete hq)), ?_, ?_, ?_⟩
          · intro p hp
            obtain ⟨hup, hdown⟩ := hinv.1 p hp
            constructor
            · rw [countP_mapDelete_of_get_some hv]
              simp [entryCount, isMemeVote, hup]
            · rw [countP_mapDelete_of_get_some hv]
              simp [entryCount, isMemeVote, hdown]
          · intro p hp
            rw [mem_mapSet_iff hwf.commentKeysNodup hc] at hp
            rcases hp with rfl | ⟨hp', hpne⟩
            · have hcp : c.upvotes = countP s.userVotes (isCommentUpVote id) :=
                hinv.2.1 (id, c) (mapGet_mem hc)
              rw [countP_mapDelete_of_get_some hv]
              simp [entryCount, isCommentUpVote, hcp]
            · have hcp := hinv.2.1 p hp'
              have hne2 : id ≠ p.1 := fun h => hpne h.symm
              rw [countP_mapDelete_of_get_some hv]
              simp [entryCount, isCommentUpVote, hne2, hcp]
          · intro p hp
            have hrp := hinv.2.2 p hp
            rw [countP_mapDelete_of_get_some hv,
              countP_mapDelete_of_get_some hv]
            simp [entryCount, isResourceVote, hrp]
      | down =>
          -- prior down record (never produced by the storage methods, but
          -- tolerated): the code still counts an up-vote and overwrites
          have heq : applyOp s (Op.voteComment id u) =
              { s with
                  comments := mapSet s.comments id
                    { c with upvotes := c.upvotes + 1 },
                  userVotes := mapSet s.userVotes (VoteKey.comment id u)
                    Dir.up } := by
            simp [applyOp, voteComment_down_eq s id u c hc hv]
          rw [heq]
          refine ⟨storeWF_vote_comment s hwf hc _ u Dir.up _
              (fun q hq => mem_mapSet hq), ?_, ?_, ?_⟩
          · intro p hp
            obtain ⟨hup, hdown⟩ := hinv.1 p hp
            constructor
            · rw [countP_mapSet_of_get_some hv]
              simp [entryCount, isMemeVote, hup]
            · rw [countP_mapSet_of_get_some hv]
              simp [entryCount, isMemeVote, hdown]
          · intro p hp
            rw [mem_mapSet_iff hwf.commentKeysNodup hc] at hp
            rcases hp with rfl | ⟨hp', hpne⟩
            · have hcp : c.upvotes = countP s.userVotes (isCommentUpVote id) :=
                hinv.2.1 (id, c) (mapGet_mem hc)
              rw [countP_mapSet_of_get_some hv]
              simp [entryCount, isCommentUpVote, hcp]
            · have hcp := hinv.2.1 p hp'
              have hne2 : id ≠ p.1 := fun h => hpne h.symm
              rw [countP_mapSet_of_get_some hv]
              simp [entryCount, isCommentUpVote, hne2, hcp]
          · intro p hp
            have hrp := hinv.2.2 p hp
            rw [countP_mapSet_of_get_some hv, countP_mapSet_of_get_some hv]
            simp [entryCount, isResourceVote, hrp]

theorem invStep_voteResource (s : Store) (id u : Nat) (v : Dir)
    (hwf : StoreWF s) (hinv : LedgerInv s) :
    StoreWF (applyOp s (Op.voteResource id u v)) ∧
      LedgerInv (applyOp s (Op.voteResource id u v)) := by
  rcases hr : mapGet s.resources id with _ | r
  · have heq : applyOp s (Op.voteResource id u v) = s := by
      simp [applyOp, Store.voteResource, hr]
    rw [heq]
    exact ⟨hwf, hinv⟩
  · rcases hv : mapGet s.userVotes (VoteKey.resource id u) with _ | v'
    · -- no prior record
      have heq : applyOp s (Op.voteResource id u v) =
          { s with
              resources := mapSet s.resources id
                { r with votes := r.votes + (if v = Dir.up then 1 else -1) },
              userVotes := mapSet s.userVotes (VoteKey.resource id u) v } := by
        simp [applyOp, voteResource_fresh_eq s id u v r hr hv]
      rw [heq]
      refine ⟨storeWF_vote_resource s hwf hr _ u v _
          (fun q hq => mem_mapSet hq), ?_, ?_, ?_⟩
      · intro p hp
        obtain ⟨hup, hdown⟩ := hinv.1 p hp
        constructor
        · rw [countP_mapSet_of_get_none hv]
          simp [entryCount, isMemeVote, hup]
        · rw [countP_mapSet_of_get_none hv]
          simp [entryCount, isMemeVote, hdown]
      · intro p hp
        have hcp := hinv.2.1 p hp
        rw [countP_mapSet_of_get_none hv]
        simp [entryCount, isCommentUpVote, hcp]
      · intro p hp
        rw [mem_mapSet_iff hwf.resourceKeysNodup hr] at hp
        rcases hp with rfl | ⟨hp', hpne⟩
        · have hrp : r.votes = countP s.userVotes (isResourceVote id Dir.up) -
              countP s.userVotes (isResourceVote id Dir.down) :=
            hinv.2.2 (id, r) (mapGet_mem hr)
          rw [countP_mapSet_of_get_none hv, countP_mapSet_of_get_none hv]
          cases v <;> simp [entryCount, isResourceVote] <;> omega
        · have hrp := hinv.2.2 p hp'
          have hne2 : id ≠ p.1 := fun h => hpne h.symm
          rw [countP_mapSet_of_get_none hv, countP_mapSet_of_get_none hv]
          simp [entryCount, isResourceVote, hne2, hrp]
    · by_cases hvv : v' = v
      · -- same prior record: toggle off
        subst hvv
        have heq : applyOp s (Op.voteResource id u v') =
            { s with
                resources := mapSet s.resources id
                  { r with votes := r.votes +
                      (if v' = Dir.up then -1 else 1) },
                userVotes := mapDelete s.userVotes
                  (VoteKey.resource id u) } := by
          simp [applyOp, voteResource_toggle_eq s id u v' r hr hv]
        rw [heq]
        refine ⟨storeWF_vote_resource s hwf hr _ u v' _
            (fun q hq => Or.inr (mem_mapDelete hq)), ?_, ?_, ?_⟩
        · intro p hp
          obtain ⟨hup, hdown⟩ := hinv.1 p hp
          constructor
          · rw [countP_mapDelete_of_get_some hv]
            simp [entryCount, isMemeVote, hup]
          · rw [countP_mapDelete_of_get_some hv]
            simp [entryCount, isMemeVote, hdown]
        · intro p hp
          have hcp := hinv.2.1 p hp
          rw [countP_mapDelete_of_get_some hv]
          simp [entryCount, isCommentUpVote, hcp]
        · intro p hp
          rw [mem_mapSet_iff hwf.resourceKeysNodup hr] at hp
          rcases hp with rfl | ⟨hp', hpne⟩
          · have hrp : r.votes = countP s.userVotes (isResourceVote id Dir.up) -
                countP s.userVotes (isResourceVote id Dir.down) :=
              hinv.2.2 (id, r) (mapGet_mem hr)
            rw [countP_mapDelete_of_get_some hv,
              countP_mapDelete_of_get_some hv]
            cases v' <;> simp [entryCount, isResourceVote] <;> omega
          · have hrp := hinv.2.2 p hp'
            have hne2 : id ≠ p.1 := fun h => hpne h.symm
            rw [countP_mapDelete_of_get_some hv,
              countP_mapDelete_of_get_some hv]
            simp [entryCount, isResourceVote, hne2, hrp]
      · -- different prior record: switch
        have heq : applyOp s (Op.voteResource id u v) =
            { s with
                resources := mapSet s.resources id
                  { r with votes := r.votes +
                      (if v = Dir.up then 2 else -2) },
                userVotes := mapSet s.userVotes (VoteKey.resource id u) v } := by
          simp [applyOp, voteResource_switch_eq s id u v v' r hvv hr hv]
        rw [heq]
        refine ⟨storeWF_vote_resource s hwf hr _ u v _
            (fun q hq => mem_mapSet hq), ?_, ?_, ?_⟩
        · intro p hp
          obtain ⟨hup, hdown⟩ := hinv.1 p hp
          constructor
          · rw [countP_mapSet_of_get_some hv]
            simp [entryCount, isMemeVote, hup]
          · rw [countP_mapSet_of_get_some hv]
            simp [entryCount, isMemeVote, hdown]
        · intro p hp
          have hcp := hinv.2.1 p hp
          rw [countP_mapSet_of_get_some hv]
          simp [entryCount, isCommentUpVote, hcp]
        · intro p hp
          rw [mem_mapSet_iff hwf.resourceKeysNodup hr] at hp
          rcases hp with rfl | ⟨hp', hpne⟩
          · have hrp : r.votes = countP s.userVotes (isResourceVote id Dir.up) -
                countP s.userVotes (isResourceVote id Dir.down) :=
              hinv.2.2 (id, r) (mapGet_mem hr)
            rw [countP_mapSet_of_get_some hv, countP_mapSet_of_get_some hv]
            cases v <;> cases v' <;>
              first
                | exact absurd rfl hvv
                | simp [entryCount, isResourceVote] <;> omega
          · have hrp := hinv.2.2 p hp'
            have hne2 : id ≠ p.1 := fun h => hpne h.symm
            rw [countP_mapSet_of_get_some hv, countP_mapSet_of_get_some hv]
            simp [entryCount, isResourceVote, hne2, hrp]

theorem invStep_createMeme (s : Store) (im : InsertMeme) (nowMs : Int)
    (hwf : StoreWF s) (hinv : LedgerInv s) :
    StoreWF (applyOp s (Op.createMeme im nowMs)) ∧
      LedgerInv (applyOp s (Op.createMeme im nowMs)) := by
  have hfresh : mapGet s.memes s.memeId = none := by
    rcases h : mapGet s.memes s.memeId with _ | w
    · rfl
    · exact absurd (hwf.memeKeysLt _ (mapGet_mem h)) (lt_irrefl _)
  have hnotin : s.memeId ∉ s.memes.map Prod.fst := by
    intro hmem
    rcases List.mem_map.mp hmem with ⟨q, hq, hqk⟩
    exact absurd (hqk ▸ hwf.memeKeysLt q hq) (lt_irrefl _)
  have heq : applyOp s (Op.createMeme im nowMs) =
      { s with
          memes := mapSet s.memes s.memeId
            { id := s.memeId, authorId := im.authorId,
              imageUrl := im.imageUrl, caption := im.caption, upvotes := 0,
              downvotes := 0, createdAtMs := nowMs, author := none },
          memeId := s.memeId + 1 } := by
    simp [applyOp, Store.createMeme]
  rw [heq]
  constructor
  · refine ⟨?_, ?_, ?_, ?_, ?_, ?_, ?_⟩
    · show ((mapSet s.memes s.memeId _).map Prod.fst).Nodup
      rw [keys_mapSet_of_get_none hfresh]
      simp [List.nodup_append, hwf.memeKeysNodup, hnotin]
    · exact hwf.commentKeysNodup
    · exact hwf.resourceKeysNodup
    · intro p hp
      rcases mem_mapSet hp with rfl | hp'
      · show s.memeId < s.memeId + 1
        omega
      · exact lt_trans (hwf.memeKeysLt p hp') (Nat.lt_succ_self _)
    · exact hwf.commentKeysLt
    · exact hwf.resourceKeysLt
    · intro q hq
      have hlive := hwf.liveKeys q hq
      obtain ⟨k, d0⟩ := q
      cases k with
      | meme id2 u2 =>
          obtain ⟨w2, hw2⟩ := hlive
          exact mapGet_mapSet_isSome s.memeId _ hw2
      | comment id2 u2 => exact hlive
      | resource id2 u2 => exact hlive
  · refine ⟨?_, ?_, ?_⟩
    · intro p hp
      rcases mem_mapSet hp with rfl | hp'
      · constructor
        · exact (countP_fresh_meme s hwf Dir.up).symm
        · exact (countP_fresh_meme s hwf Dir.down).symm
      · exact hinv.1 p hp'
    · exact hinv.2.1
    · exact hinv.2.2

theorem invStep_createComment (s : Store) (ic : InsertComment) (nowMs : Int)
    (hwf : StoreWF s) (hinv : LedgerInv s) :
    StoreWF (applyOp s (Op.createComment ic nowMs)) ∧
      LedgerInv (applyOp s (Op.createComment ic nowMs)) := by
  have hfresh : mapGet s.comments s.commentId = none := by
    rcases h : mapGet s.comments s.commentId with _ | w
    · rfl
    · exact absurd (hwf.commentKeysLt _ (mapGet_mem h)) (lt_irrefl _)
  have hnotin : s.commentId ∉ s.comments.map Prod.fst := by
    intro hmem
    rcases List.mem_map.mp hmem with ⟨q, hq, hqk⟩
    exact absurd (hqk ▸ hwf.commentKeysLt q hq) (lt_irrefl _)
  have heq : applyOp s (Op.createComment ic nowMs) =
      { s with
          comments := mapSet s.comments s.commentId
            { id := s.commentId, memeId := ic.memeId,
              authorId := ic.authorId, body := ic.body,
              parentId := ic.parentId, upvotes := 0, createdAtMs := nowMs },
          commentId := s.commentId + 1 } := by
    simp [applyOp, Store.createComment]
  rw [heq]
  constructor
  · refine ⟨?_, ?_, ?_, ?_, ?_, ?_, ?_⟩
    · exact hwf.memeKeysNodup
    · show ((mapSet s.comments s.commentId _).map Prod.fst).Nodup
      rw [keys_mapSet_of_get_none hfresh]
      simp [List.nodup_append, hwf.commentKeysNodup, hnotin]
    · exact hwf.resourceKeysNodup
    · exact hwf.memeKeysLt
    · intro p hp
      rcases mem_mapSet hp with rfl | hp'
      · show s.commentId < s.commentId + 1
        omega
      · exact lt_trans (hwf.commentKeysLt p hp') (Nat.lt_succ_self _)
    · exact hwf.resourceKeysLt
    · intro q hq
      have hlive := hwf.liveKeys q hq
      obtain ⟨k, d0⟩ := q
      cases k with
      | meme id2 u2 => exact hlive
      | comment id2 u2 =>
          obtain ⟨w2, hw2⟩ := hlive
          exact mapGet_mapSet_isSome s.commentId _ hw2
      | resource id2 u2 => exact hlive
  · refine ⟨?_, ?_, ?_⟩
    · exact hinv.1
    · intro p hp
      rcases mem_mapSet hp with rfl | hp'
      · exact (countP_fresh_comment s hwf).symm
      · exact hinv.2.1 p hp'
    · exact hinv.2.2

theorem invStep_createResource (s : Store) (ir : InsertResource)
    (nowMs : Int) (hwf : StoreWF s) (hinv : LedgerInv s) :
    StoreWF (applyOp s (Op.createResource ir nowMs)) ∧
      LedgerInv (applyOp s (Op.createResource ir nowMs)) := by
  have hfresh : mapGet s.resources s.resourceId = none := by
    rcases h : mapGet s.resources s.resourceId with _ | w
    · rfl
    · exact absurd (hwf.resourceKeysLt _ (mapGet_mem h)) (lt_irrefl _)
  have hnotin : s.resourceId ∉ s.resources.map Prod.fst := by
    intro hmem
    rcases List.mem_map.mp hmem with ⟨q, hq, hqk⟩
    exact absurd (hqk ▸ hwf.resourceKeysLt q hq) (lt_irrefl _)
  have heq : applyOp s (Op.createResource ir nowMs) =
      { s with
          resources := mapSet s.resources s.resourceId
            { id := s.resourceId, title := ir.title, category := ir.category,
              markdown := ir.markdown, downloadUrl := ir.downloadUrl,
              votes := 0, createdBy := ir.createdBy, createdAtMs := nowMs },
          resourceId := s.resourceId + 1 } := by
    simp [applyOp, Store.createResource]
  rw [heq]
  constructor
  · refine ⟨?_, ?_, ?_, ?_, ?_, ?_, ?_⟩
    · exact hwf.memeKeysNodup
    · exact hwf.commentKeysNodup
    · show ((mapSet s.resources s.resourceId _).map Prod.fst).Nodup
      rw [keys_mapSet_of_get_none hfresh]
      simp [List.nodup_append, hwf.resourceKeysNodup, hnotin]
    · exact hwf.memeKeysLt
    · exact hwf.commentKeysLt
    · intro p hp
      rcases mem_mapSet hp with rfl | hp'
      · show s.resourceId < s.resourceId + 1
        omega
      · exact lt_trans (hwf.resourceKeysLt p hp') (Nat.lt_succ_self _)
    · intro q hq
      have hlive := hwf.liveKeys q hq
      obtain ⟨k, d0⟩ := q
      cases k with
      | meme id2 u2 => exact hlive
      | comment id2 u2 => exact hlive
      | resource id2 u2 =>
          obtain ⟨w2, hw2⟩ := hlive
          exact mapGet_mapSet_isSome s.resourceId _ hw2
  · refine ⟨?_, ?_, ?_⟩
    · exact hinv.1
    · exact hinv.2.1
    · intro p hp
      rcases mem_mapSet hp with rfl | hp'
      · have h1 := countP_fresh_resource s hwf Dir.up
        have h2 := countP_fresh_resource s hwf Dir.down
        show (0 : Int) = countP s.userVotes (isResourceVote s.resourceId Dir.up) -
          countP s.userVotes (isResourceVote s.resourceId Dir.down)
        omega
      · exact hinv.2.2 p hp'

theorem invStep (s : Store) (op : Op) (hwf : StoreWF s)
    (hinv : LedgerInv s) :
    StoreWF (applyOp s op) ∧ LedgerInv (applyOp s op) := by
  cases op with
  | voteMeme id u v => exact invStep_voteMeme s id u v hwf hinv
  | voteComment id u => exact invStep_voteComment s id u hwf hinv
  | voteResource id u v => exact invStep_voteResource s id u v hwf hinv
  | createMeme im nowMs => exact invStep_createMeme s im nowMs hwf hinv
  | createComment ic nowMs => exact invStep_createComment s ic nowMs hwf hinv
  | createResource ir nowMs =>
      exact invStep_createResource s ir nowMs hwf hinv

theorem storeWF_new (nowMs : Int) : StoreWF (MemStorage.new nowMs) := by
  refine ⟨?_, ?_, ?_, ?_, ?_, ?_, ?_⟩ <;>
    simp [MemStorage.new, Store.seedResources, seedResourceList, mapSet,
      mapGet]

theorem ledgerInv_new (nowMs : Int) : LedgerInv (MemStorage.new nowMs) := by
  refine ⟨?_, ?_, ?_⟩
  · intro p hp
    simp [MemStorage.new, Store.seedResources, seedResourceList, mapSet] at hp
  · intro p hp
    simp [MemStorage.new, Store.seedResources, seedResourceList, mapSet] at hp
  · intro p hp
    simp [MemStorage.new, Store.seedResources, seedResourceList, mapSet] at hp
    rcases hp with rfl | rfl | rfl <;>
      simp [MemStorage.new, Store.seedResources, seedResourceList, mapSet,
        countP]

/-- Claim C2: after every finite sequence of storage operations — votes
(successful ones mutate the store, failed lookups leave it unchanged) and
entity creations — starting from a freshly constructed `MemStorage`, each
entity's stored counters equal the sum of the effects of the
currently-active vote records for it: each meme's `upvotes`/`downvotes`
equal its number of active `up`/`down` records, each comment's `upvotes`
equals its number of active `up` records, and each resource's `votes`
equals its active `up` records minus its active `down` records. -/
theorem vote_ledger_counters_invariant (nowMs : Int) (ops : List Op) :
    LedgerInv (applyOps (MemStorage.new nowMs) ops) := by
  have main : ∀ (l : List Op) (s : Store), StoreWF s → LedgerInv s →
      StoreWF (applyOps s l) ∧ LedgerInv (applyOps s l) := by
    intro l
    induction l with
    | nil =>
        intro s hwf hinv
        exact ⟨hwf, hinv⟩
    | cons op rest ih =>
        intro s hwf hinv
        have hstep := invStep s op hwf hinv
        exact ih _ hstep.1 hstep.2
  exact (main ops (MemStorage.new nowMs) (storeWF_new nowMs)
    (ledgerInv_new nowMs)).2

end CFH
